import Mathlib

/-!
Verification development for the document-separation windowing engine
(`src/data/dataset.py`, `src/data/datamodule.py`).

The Python code is shallowly embedded:

* Python `list` indexing `l[i]` (which supports negative indices and raises
  `IndexError` out of range) becomes `pyGet`; fallible code returns
  `Except PyErr`.
* `np.random.rand()` draws are modelled as rational oracle values; each
  `np.random.choice(n)` is modelled as `oracleValue % n` (raising
  `ValueError` when `n = 0`, as numpy does), so that universally
  quantifying over the oracle covers every possible outcome of the draws
  and every outcome is realised by some oracle.
* `np.random.shuffle` becomes an oracle function on lists; theorems that
  need it assume the oracle only produces permutations.
* The `while` loops of `get_next_idcs` / `get_previous_idcs` are embedded
  with explicit fuel; `Except.ok none` marks fuel exhaustion, and the
  termination theorems show fuel `steps_forward` (resp. `steps_back`)
  is never exhausted on well-formed hierarchies.
-/

/-- Python-level runtime errors raised by the embedded code. -/
inductive PyErr where
  | indexError
  | valueError
  | assertError
  | keyError
  | typeError
deriving DecidableEq, Repr

/-- Python list indexing `l[i]`: negative indices count from the end,
out-of-range gives `none` (an `IndexError` at use sites). -/
def pyGet {α : Type} (l : List α) (i : Int) : Option α :=
  if 0 ≤ i then l[i.toNat]?
  else if 0 ≤ i + l.length then l[(i + l.length).toNat]?
  else none

/-- Lift an optional indexing result into `Except`, raising `IndexError`. -/
def liftIdx {α : Type} (o : Option α) : Except PyErr α :=
  match o with
  | none => .error .indexError
  | some a => .ok a

/-- Python `range(a, b)` as a list of integers. -/
def pyRange (a b : Int) : List Int :=
  (List.range (b - a).toNat).map fun k => a + (k : Int)

/-- A scan coordinate `(inventory, document, scan)`. -/
abbrev Idx3 := Int × Int × Int

/-- The state of `DocumentSeparationDataset` after `__init__`
(`src/data/dataset.py` lines 24-75): the path hierarchy (paths abstracted
to identifiers), the mode string, and the sampler configuration. -/
structure DSData where
  image_paths : List (List (List Nat))
  mode : String
  number_of_images : Nat
  sample_same_inventory : Bool
  wrap_round : Bool
  prob_shuffle_document : ℚ
  prob_randomize_document_order : ℚ
  prob_random_scan_insert : ℚ
deriving DecidableEq, Repr

/-- `self.steps_back = (self.number_of_images // 2) + 1` (line 66). -/
def DSData.steps_back (ds : DSData) : Nat := ds.number_of_images / 2 + 1

/-- `self.steps_forward = self.number_of_images + 1 - self.steps_back` (line 67). -/
def DSData.steps_forward (ds : DSData) : Nat :=
  ds.number_of_images + 1 - ds.steps_back

/-- `DocumentSeparationDataset.__init__` (lines 24-75).  Checks, in source
order: the `mode` assertion (line 39), the empty-document `ValueError`
raised while building `idx_to_idcs` (lines 50-59), and the
`number_of_images` assertion (line 64).  The three probabilities are
stored without any validation, exactly as in the source. -/
def datasetInit (image_paths : List (List (List Nat))) (mode : String)
    (number_of_images : Int) (sample_same_inventory wrap_round : Bool)
    (prob_shuffle_document prob_randomize_document_order
      prob_random_scan_insert : ℚ) : Except PyErr DSData :=
  if mode ∉ ["train", "val", "test"] then .error .assertError
  else if image_paths.any (fun inv => inv.any (fun doc => doc.length < 1)) then
    .error .valueError
  else if ¬ 0 < number_of_images then .error .assertError
  else .ok {
    image_paths := image_paths
    mode := mode
    number_of_images := number_of_images.toNat
    sample_same_inventory := sample_same_inventory
    wrap_round := wrap_round
    prob_shuffle_document := prob_shuffle_document
    prob_randomize_document_order := prob_randomize_document_order
    prob_random_scan_insert := prob_random_scan_insert }

/-- `is_out_of_bounds` (lines 109-117).  The Python `or` chain
short-circuits, so `self.image_paths[inventory]` is only evaluated after
the inventory bounds checks pass; the nested structure below reproduces
that evaluation order (the inner `none` arms are unreachable). -/
def is_out_of_bounds (ds : DSData) (inventory document scan : Int) :
    Except PyErr Bool :=
  if inventory < 0 ∨ document < 0 ∨ scan < 0 then .ok true
  else if (ds.image_paths.length : Int) ≤ inventory then .ok true
  else
    match pyGet ds.image_paths inventory with
    | none => .error .indexError
    | some inv =>
      if (inv.length : Int) ≤ document then .ok true
      else
        match pyGet inv document with
        | none => .error .indexError
        | some doc => .ok ((doc.length : Int) ≤ scan)

/-- `scan_in_document` (lines 119-120): indexes
`self.image_paths[inventory][document]` without any bounds check, so an
out-of-range inventory or document raises `IndexError`. -/
def scan_in_document (ds : DSData) (inventory document scan : Int) :
    Except PyErr Bool :=
  match pyGet ds.image_paths inventory with
  | none => .error .indexError
  | some inv =>
    match pyGet inv document with
    | none => .error .indexError
    | some doc => .ok (decide (0 ≤ scan) && decide (scan < (doc.length : Int)))

/-- `get_first_document` (lines 122-123). -/
def get_first_document (inventory : Int) : Int × Int := (inventory, 0)

/-- `get_last_document` (lines 125-126): indexes `self.image_paths[inventory]`. -/
def get_last_document (ds : DSData) (inventory : Int) :
    Except PyErr (Int × Int) :=
  match pyGet ds.image_paths inventory with
  | none => .error .indexError
  | some inv => .ok (inventory, (inv.length : Int) - 1)

/-- `get_next_document` (lines 128-131). -/
def get_next_document (ds : DSData) (inventory document : Int) :
    Except PyErr (Option (Int × Int)) := do
  let b ← is_out_of_bounds ds inventory (document + 1) 0
  if b then pure none else pure (some (inventory, document + 1))

/-- `get_prev_document` (lines 133-136). -/
def get_prev_document (ds : DSData) (inventory document : Int) :
    Except PyErr (Option (Int × Int)) := do
  let b ← is_out_of_bounds ds inventory (document - 1) 0
  if b then pure none else pure (some (inventory, document - 1))

/-- `get_first_inventory` (lines 138-139). -/
def get_first_inventory : Int := 0

/-- `get_last_inventory` (lines 141-142). -/
def get_last_inventory (ds : DSData) : Int := (ds.image_paths.length : Int) - 1

/-- `get_next_inventory` (lines 144-147). -/
def get_next_inventory (ds : DSData) (inventory : Int) :
    Except PyErr (Option Int) := do
  let b ← is_out_of_bounds ds (inventory + 1) 0 0
  if b then pure none else pure (some (inventory + 1))

/-- `get_prev_inventory` (lines 149-152). -/
def get_prev_inventory (ds : DSData) (inventory : Int) :
    Except PyErr (Option Int) := do
  let b ← is_out_of_bounds ds (inventory - 1) 0 0
  if b then pure none else pure (some (inventory - 1))

/-- `get_all_scans_in_document` (lines 154-157). -/
def get_all_scans_in_document (ds : DSData) (inventory document : Int) :
    Except PyErr (List Idx3) := do
  let b ← is_out_of_bounds ds inventory document 0
  if b then pure []
  else
    match pyGet ds.image_paths inventory with
    | none => .error .indexError
    | some inv =>
      match pyGet inv document with
      | none => .error .indexError
      | some doc =>
        pure ((List.range doc.length).map fun k => (inventory, document, Int.ofNat k))

/-- The per-sample mutable state `self.next_scans` / `self.prev_scans`
(lines 69-70, reset by `fill_next_prev_scans`). -/
structure ScanState where
  next_scans : List Idx3
  prev_scans : List Idx3
deriving DecidableEq, Repr

/-- Oracle for the random draws made by one call of `fill_next_prev_scans`:
the `np.random.rand()` value and the `np.random.shuffle` permutation. -/
structure FillOracle where
  rand : ℚ
  shuffle : List Idx3 → List Idx3

/-- Oracle for the draws of one `get_scans_in_next_document` /
`get_scans_in_prev_document` call: the two `np.random.rand()` values, the
raw values behind `random_choice_except` and `np.random.choice`, and the
shuffle permutation. -/
structure StepOracle where
  randRandomize : ℚ
  docChoice : Nat
  invChoice : Nat
  docChoice2 : Nat
  randShuffle : ℚ
  shuffle : List Idx3 → List Idx3

/-- Oracle for one `insert_random_scan` call. -/
structure InsOracle where
  rand : ℚ
  posChoice : Nat
  invChoice : Nat
  docChoice : Nat
  scanChoice : Nat

/-- All random draws made by one `__getitem__` call; the loop oracles are
indexed by the remaining fuel of the corresponding `while` iteration. -/
structure SampleOracle where
  fill : FillOracle
  nxt : Nat → StepOracle
  prv : Nat → StepOracle
  ins : InsOracle

/-- The shuffle oracles only ever produce permutations of their input
(this is the one property of `np.random.shuffle` the theorems use). -/
def StepOracle.Perm (o : StepOracle) : Prop := ∀ l, (o.shuffle l).Perm l

/-- `np.random.choice(n)` (or of a list of length `n`): raises
`ValueError` when `n = 0`, otherwise some value in `[0, n)`; the oracle's
raw value is reduced mod `n` so every outcome is reachable. -/
def np_choice (n : Nat) (c : Nat) : Except PyErr Nat :=
  if n = 0 then .error .valueError else .ok (c % n)

/-- `random_choice_except` (lines 200-208): asserts `excluding < high`,
draws from `[0, high-1)` (`ValueError` when that range is empty), and
shifts the value past the excluded one. -/
def random_choice_except (high : Nat) (excluding : Int) (c : Nat) :
    Except PyErr Int :=
  if ¬ excluding < (high : Int) then .error .assertError
  else do
    let choice ← np_choice (high - 1) c
    pure ((choice : Int) + if excluding ≤ (choice : Int) then 1 else 0)

/-- The split of a shuffled document around the centre scan performed by
the `for` loop of `fill_next_prev_scans` (lines 172-183), with the
`before_scan` / `after_scan` flags threaded through a fold. -/
def split_scans (center : Idx3) (l : List Idx3) :
    List Idx3 × List Idx3 :=
  let step := fun (acc : List Idx3 × List Idx3 × Bool × Bool) (x : Idx3) =>
    if x = center then (acc.1, acc.2.1, false, true)
    else if acc.2.2.1 then (acc.1 ++ [x], acc.2.1, acc.2.2)
    else if acc.2.2.2 then (acc.1, acc.2.1 ++ [x], acc.2.2)
    else acc
  let r := l.foldl step ([], [], true, false)
  (r.1, r.2.1)

/-- `fill_next_prev_scans` (lines 159-183).  `all_scans` is a list and
never `None`, so the `raise ValueError` on line 167 is unreachable;
returns the fresh `(next_scans, prev_scans)` state. -/
def fill_next_prev_scans (ds : DSData) (o : FillOracle)
    (inventory document scan : Int) : Except PyErr ScanState := do
  if ds.prob_shuffle_document > o.rand then do
    let all_scans ← get_all_scans_in_document ds inventory document
    if all_scans.length = 1 then pure ⟨[], []⟩
    else
      let shuffled := o.shuffle all_scans
      let pn := split_scans (inventory, document, scan) shuffled
      pure ⟨pn.2, pn.1⟩
  else pure ⟨[], []⟩

/-- `get_next_scans_in_document` (lines 185-190): returns the stashed
`next_scans` when either stash is non-empty, otherwise asserts the scan
is in its document and lists the scans after it. -/
def get_next_scans_in_document (ds : DSData) (st : ScanState)
    (inventory document scan : Int) : Except PyErr (List Idx3) :=
  if st.next_scans ≠ [] ∨ st.prev_scans ≠ [] then .ok st.next_scans
  else do
    let ok ← scan_in_document ds inventory document scan
    if ok then
      match pyGet ds.image_paths inventory with
      | none => .error .indexError
      | some inv =>
        match pyGet inv document with
        | none => .error .indexError
        | some doc =>
          pure ((pyRange (scan + 1) doc.length).map fun i =>
            (inventory, document, i))
    else .error .assertError

/-- `get_prev_scans_in_document` (lines 192-197). -/
def get_prev_scans_in_document (ds : DSData) (st : ScanState)
    (inventory document scan : Int) : Except PyErr (List Idx3) :=
  if st.next_scans ≠ [] ∨ st.prev_scans ≠ [] then .ok st.prev_scans
  else do
    let ok ← scan_in_document ds inventory document scan
    if ok then
      pure ((pyRange 0 scan).map fun i => (inventory, document, i))
    else .error .assertError

/-- Lines 211-221 of `get_scans_in_next_document`: the randomized or
sequential choice of the next document (before the wraparound check). -/
def pick_next_document (ds : DSData) (o : StepOracle)
    (inventory document : Int) : Except PyErr (Option (Int × Int)) :=
  if ds.prob_randomize_document_order > o.randRandomize then
    if ds.sample_same_inventory then
      match pyGet ds.image_paths inventory with
      | none => .error .indexError
      | some inv => do
        let d ← random_choice_except inv.length document o.docChoice
        pure (some (inventory, d))
    else do
      let ni ← random_choice_except ds.image_paths.length inventory o.invChoice
      match pyGet ds.image_paths ni with
      | none => .error .indexError
      | some inv => do
        let d ← np_choice inv.length o.docChoice2
        pure (some (ni, (d : Int)))
  else
    get_next_document ds inventory document

/-- Lines 223-234 of `get_scans_in_next_document`: the wraparound policy
applied when the picked next document is out of bounds; `none` means the
caller records a missing sentinel. -/
def resolve_next_document (ds : DSData) (o : StepOracle)
    (inventory document : Int) : Except PyErr (Option (Int × Int)) := do
  let nid0 ← pick_next_document ds o inventory document
  match nid0 with
  | some p => pure (some p)
  | none =>
    if ds.wrap_round then
      if ds.sample_same_inventory then
        pure (some (get_first_document inventory))
      else do
        let ni? ← get_next_inventory ds inventory
        pure (some (get_first_document (ni?.getD get_first_inventory)))
    else pure none

/-- `get_scans_in_next_document` (lines 210-241): pick the next document
(randomized or sequential, with wraparound), then list and optionally
shuffle its scans. -/
def get_scans_in_next_document (ds : DSData) (o : StepOracle)
    (inventory document : Int) :
    Except PyErr (Option (List Idx3) × (Int × Int)) := do
  let nid1 ← resolve_next_document ds o inventory document
  match nid1 with
  | none => pure (none, (inventory, document))
  | some nid => do
    let scans ← get_all_scans_in_document ds nid.1 nid.2
    let scans := if ds.prob_shuffle_document > o.randShuffle
      then o.shuffle scans else scans
    pure (some scans, nid)

/-- Lines 244-254 of `get_scans_in_prev_document`: the randomized or
sequential choice of the previous document. -/
def pick_prev_document (ds : DSData) (o : StepOracle)
    (inventory document : Int) : Except PyErr (Option (Int × Int)) :=
  if ds.prob_randomize_document_order > o.randRandomize then
    if ds.sample_same_inventory then
      match pyGet ds.image_paths inventory with
      | none => .error .indexError
      | some inv => do
        let d ← random_choice_except inv.length document o.docChoice
        pure (some (inventory, d))
    else do
      let pi ← random_choice_except ds.image_paths.length inventory o.invChoice
      match pyGet ds.image_paths pi with
      | none => .error .indexError
      | some inv => do
        let d ← np_choice inv.length o.docChoice2
        pure (some (pi, (d : Int)))
  else
    get_prev_document ds inventory document

/-- Lines 256-267 of `get_scans_in_prev_document`: the backward
wraparound policy. -/
def resolve_prev_document (ds : DSData) (o : StepOracle)
    (inventory document : Int) : Except PyErr (Option (Int × Int)) := do
  let pid0 ← pick_prev_document ds o inventory document
  match pid0 with
  | some p => pure (some p)
  | none =>
    if ds.wrap_round then
      if ds.sample_same_inventory then do
        let p ← get_last_document ds inventory
        pure (some p)
      else do
        let pi? ← get_prev_inventory ds inventory
        let p ← get_last_document ds (pi?.getD (get_last_inventory ds))
        pure (some p)
    else pure none

/-- `get_scans_in_prev_document` (lines 243-274), symmetric to
`get_scans_in_next_document`. -/
def get_scans_in_prev_document (ds : DSData) (o : StepOracle)
    (inventory document : Int) :
    Except PyErr (Option (List Idx3) × (Int × Int)) := do
  let pid1 ← resolve_prev_document ds o inventory document
  match pid1 with
  | none => pure (none, (inventory, document))
  | some pid => do
    let scans ← get_all_scans_in_document ds pid.1 pid.2
    let scans := if ds.prob_shuffle_document > o.randShuffle
      then o.shuffle scans else scans
    pure (some scans, pid)

/-- The `while len(next_idcs) < self.steps_forward` loop of
`get_next_idcs` (lines 280-285), embedded with fuel; `.ok none` marks
fuel exhaustion (which the termination theorem rules out). -/
def next_loop (ds : DSData) (o : Nat → StepOracle) :
    Nat → List (Option Idx3) → Int × Int →
    Except PyErr (Option (List (Option Idx3)))
  | 0, acc, _ => pure (if ds.steps_forward ≤ acc.length then some acc else none)
  | fuel + 1, acc, pair =>
    if ds.steps_forward ≤ acc.length then pure (some acc)
    else do
      let r ← get_scans_in_next_document ds (o fuel) pair.1 pair.2
      match r.1 with
      | none => next_loop ds o fuel (acc ++ [none]) r.2
      | some scans => next_loop ds o fuel (acc ++ scans.map some) r.2

/-- The `while len(prev_idcs) < self.steps_back` loop of
`get_previous_idcs` (lines 292-297), embedded with fuel. -/
def prev_loop (ds : DSData) (o : Nat → StepOracle) :
    Nat → List (Option Idx3) → Int × Int →
    Except PyErr (Option (List (Option Idx3)))
  | 0, acc, _ => pure (if ds.steps_back ≤ acc.length then some acc else none)
  | fuel + 1, acc, pair =>
    if ds.steps_back ≤ acc.length then pure (some acc)
    else do
      let r ← get_scans_in_prev_document ds (o fuel) pair.1 pair.2
      match r.1 with
      | none => prev_loop ds o fuel (none :: acc) r.2
      | some scans => prev_loop ds o fuel (scans.map some ++ acc) r.2

/-- `get_next_idcs` (lines 276-286): same-document tail, the forward
cross-document loop, and the `[: self.steps_forward]` trim. -/
def get_next_idcs (ds : DSData) (st : ScanState) (o : Nat → StepOracle)
    (inventory document scan : Int) :
    Except PyErr (Option (List (Option Idx3))) := do
  let s0 ← get_next_scans_in_document ds st inventory document scan
  let r ← next_loop ds o ds.steps_forward (s0.map some) (inventory, document)
  pure (r.map fun l => l.take ds.steps_forward)

/-- `get_previous_idcs` (lines 288-299): same-document head, the backward
cross-document loop, and the `[-self.steps_back :]` trim. -/
def get_previous_idcs (ds : DSData) (st : ScanState) (o : Nat → StepOracle)
    (inventory document scan : Int) :
    Except PyErr (Option (List (Option Idx3))) := do
  let s0 ← get_prev_scans_in_document ds st inventory document scan
  let r ← prev_loop ds o ds.steps_back (s0.map some) (inventory, document)
  pure (r.map fun l => l.drop (l.length - ds.steps_back))

/-- Lines 308-328 of `insert_random_scan`: choose the foreign coordinate
to insert, given the centre slot's inventory and document; `none` models
the early `return` (no eligible alternative document). -/
def pick_insert_coord (ds : DSData) (o : InsOracle)
    (inventory document : Int) : Except PyErr (Option Idx3) :=
  if ds.sample_same_inventory then
    match pyGet ds.image_paths inventory with
    | none => .error .indexError
    | some inv =>
      if ¬ (0 ≤ document ∧ document < (inv.length : Int)) then
        .error .keyError
      else
        let possible_documents :=
          (List.range inv.length).filter fun d => (d : Int) ≠ document
        if possible_documents.length = 0 then pure none
        else do
          let di ← np_choice possible_documents.length o.docChoice
          let random_document := (possible_documents.getD di 0 : Int)
          match pyGet inv random_document with
          | none => .error .indexError
          | some doc => do
            let random_scan ← np_choice doc.length o.scanChoice
            pure (some (inventory, random_document, (random_scan : Int)))
  else do
    let ri ← np_choice ds.image_paths.length o.invChoice
    match pyGet ds.image_paths (ri : Int) with
    | none => .error .indexError
    | some inv =>
      if (ri : Int) = inventory ∧
          ¬ (0 ≤ document ∧ document < (inv.length : Int)) then
        .error .keyError
      else
        let possible_documents := (List.range inv.length).filter
          fun d => (ri : Int) ≠ inventory ∨ (d : Int) ≠ document
        if possible_documents.length = 0 then pure none
        else do
          let di ← np_choice possible_documents.length o.docChoice
          let random_document := (possible_documents.getD di 0 : Int)
          match pyGet inv random_document with
          | none => .error .indexError
          | some doc => do
            let random_scan ← np_choice doc.length o.scanChoice
            pure (some ((ri : Int), random_document, (random_scan : Int)))

/-- `insert_random_scan` (lines 301-330): with probability
`prob_random_scan_insert`, overwrite one non-centre slot with a scan from
another document.  `set.remove(document)` raises `KeyError` when the
document is out of range; unpacking a `None` centre raises `TypeError`;
`np.random.choice` of an empty collection raises `ValueError`. -/
def insert_random_scan (ds : DSData) (o : InsOracle)
    (idcs : List (Option Idx3)) : Except PyErr (List (Option Idx3)) :=
  if ds.prob_random_scan_insert > o.rand then do
    let middle_position := idcs.length / 2
    let remaining_positions :=
      (List.range idcs.length).filter fun p => p ≠ middle_position
    let pi ← np_choice remaining_positions.length o.posChoice
    let insert_position := remaining_positions.getD pi 0
    match idcs[middle_position]? with
    | none => .error .indexError
    | some none => .error .typeError
    | some (some (inventory, document, _)) => do
      let coord? ← pick_insert_coord ds o inventory document
      match coord? with
      | none => pure idcs
      | some c => pure (idcs.set insert_position (some c))
  else pure idcs

/-- The window-construction part of `__getitem__` (lines 332-348): reset
the per-sample state, collect the preceding scans, the centre, the
following scans, and apply the random insertion.  `.ok none` again marks
fuel exhaustion inside one of the walk loops. -/
def build_idcs (ds : DSData) (o : SampleOracle)
    (inventory document scan : Int) :
    Except PyErr (Option (List (Option Idx3))) := do
  let st ← fill_next_prev_scans ds o.fill inventory document scan
  let p? ← get_previous_idcs ds st o.prv inventory document scan
  let n? ← get_next_idcs ds st o.nxt inventory document scan
  match p?, n? with
  | some p, some n => do
    let idcs := p ++ [some (inventory, document, scan)] ++ n
    let idcs ← insert_random_scan ds o.ins idcs
    pure (some idcs)
  | _, _ => pure none

/-- The text payload of one window position: either the placeholder dict
built for a sentinel slot (lines 367-374) or the transcription returned
by the external text provider for a path. -/
inductive TextPayload where
  | placeholder
  | parsed (path : Nat)
deriving DecidableEq, Repr

/-- The external collaborators of the dataset: the image provider behind
`get_image` (returning `none` when both the thumbnail and the original
fail to load), the page size returned by the text provider, and the image
transform. -/
structure Providers where
  imageOf : Nat → Option Nat
  shapeOf : Nat → Nat × Nat
  transformOf : Nat → Nat

/-- `get_image` (lines 80-99): resolve the path and ask the image
provider (thumbnail fallback collapsed into the provider). -/
def get_image (pr : Providers) (ds : DSData)
    (inventory document scan : Int) : Except PyErr (Option Nat) := do
  match pyGet ds.image_paths inventory with
  | none => .error .indexError
  | some inv =>
    match pyGet inv document with
    | none => .error .indexError
    | some doc =>
      match pyGet doc scan with
      | none => .error .indexError
      | some p => pure (pr.imageOf p)

/-- `get_text` (lines 101-107): resolve the path and return the parsed
transcription and page size from the text provider. -/
def get_text (pr : Providers) (ds : DSData)
    (inventory document scan : Int) :
    Except PyErr (TextPayload × (Nat × Nat)) := do
  match pyGet ds.image_paths inventory with
  | none => .error .indexError
  | some inv =>
    match pyGet inv document with
    | none => .error .indexError
    | some doc =>
      match pyGet doc scan with
      | none => .error .indexError
      | some p => pure (.parsed p, pr.shapeOf p)

/-- The per-position lists accumulated by the `for i in
range(self.number_of_images)` loop of `__getitem__` (lines 355-404). -/
structure ItemAcc where
  images : List (Option Nat)
  shapes : List (Nat × Nat)
  texts : List TextPayload
  image_pathsOut : List (Option Nat)
  tStart : List Nat
  tMiddle : List Nat
  tEnd : List Nat
deriving DecidableEq, Repr

/-- Lines 364-377 of the `__getitem__` loop body: load the image of a
real slot and update the `inventory, document, scan` variables, or keep
their previous (stale) values for a `None` sentinel slot. -/
def current_slot (pr : Providers) (ds : DSData) (idx : Option Idx3)
    (inv0 doc0 scn0 : Int) : Except PyErr (Option Nat × Int × Int × Int) :=
  match idx with
  | none => pure ((none : Option Nat), inv0, doc0, scn0)
  | some (i1, d1, s1) => do
    let img ← get_image pr ds i1 d1 s1
    pure (img, i1, d1, s1)

/-- Lines 392-395 of the `__getitem__` loop body: the emitted image path
(`None` when the image is absent, else the resolved path). -/
def resolve_image_path (ds : DSData) (image : Option Nat)
    (inventory document scan : Int) : Except PyErr (Option Nat) :=
  match image with
  | none => pure none
  | some _ =>
    match pyGet ds.image_paths inventory with
    | none => .error .indexError
    | some inv =>
      match pyGet inv document with
      | none => .error .indexError
      | some doc =>
        match pyGet doc scan with
        | none => .error .indexError
        | some p => pure (some p)

/-- The body of the `__getitem__` loop (lines 355-404), one position per
element of the position list, threading the Python variables
`inventory, document, scan` (which keep their previous, stale values when
the current slot is the `None` sentinel).  The placeholder `shape` and
`text` assigned on lines 366-374 for a sentinel slot are dead: line 396
unconditionally re-assigns both from `get_text`, so they are not bound
here.  Targets are only accumulated in `train`/`val` mode (line 402). -/
def item_loop (ds : DSData) (pr : Providers) (idcs : List (Option Idx3)) :
    List Nat → Int × Int × Int → Except PyErr ItemAcc
  | [], _ => pure ⟨[], [], [], [], [], [], []⟩
  | i :: rest, (inv0, doc0, scn0) => do
    let prev_idx ← liftIdx idcs[i]?
    let idx ← liftIdx idcs[i + 1]?
    let next_idx ← liftIdx idcs[i + 2]?
    let st ← current_slot pr ds idx inv0 doc0 scn0
    let image := st.1
    let inventory := st.2.1
    let document := st.2.2.1
    let scan := st.2.2.2
    let prev_document : Option Int := prev_idx.map fun t => t.2.1
    let next_document : Option Int := next_idx.map fun t => t.2.1
    let startB : Bool :=
      match prev_document with
      | none => true
      | some pd => decide (pd ≠ document)
    let endB : Bool :=
      match next_document with
      | none => true
      | some nd => decide (nd ≠ document)
    let middleB : Bool := !startB && !endB
    let image_path ← resolve_image_path ds image inventory document scan
    let ts ← get_text pr ds inventory document scan
    let acc ← item_loop ds pr idcs rest (inventory, document, scan)
    if ds.mode ∈ ["train", "val"] then
      pure ⟨image :: acc.images, ts.2 :: acc.shapes, ts.1 :: acc.texts,
        image_path :: acc.image_pathsOut,
        (if startB then 1 else 0) :: acc.tStart,
        (if middleB then 1 else 0) :: acc.tMiddle,
        (if endB then 1 else 0) :: acc.tEnd⟩
    else
      pure ⟨image :: acc.images, ts.2 :: acc.shapes, ts.1 :: acc.texts,
        image_path :: acc.image_pathsOut, acc.tStart, acc.tMiddle, acc.tEnd⟩

/-- The full sample emitted by `__getitem__` (lines 406-425): the
transformed images, shapes, texts, image paths, the three target lists,
and the trimmed coordinate window `idcs[1:-1]`. -/
structure ItemOut where
  images : List (Option Nat)
  shapes : List (Nat × Nat)
  texts : List TextPayload
  image_pathsOut : List (Option Nat)
  tStart : List Nat
  tMiddle : List Nat
  tEnd : List Nat
  idcsOut : List (Option Idx3)
deriving DecidableEq, Repr

/-- `__getitem__` (lines 332-425) for a centre coordinate: build the
window, run the per-position loop, apply the (non-`SmartCompose`) image
transform which maps `None` to `None` (lines 411-417), and trim the
emitted coordinates to `idcs[1:-1]` (line 423).  `.ok none` marks fuel
exhaustion inside a walk loop. -/
def getItem (ds : DSData) (pr : Providers) (o : SampleOracle)
    (inventory document scan : Int) : Except PyErr (Option ItemOut) := do
  let idcs? ← build_idcs ds o inventory document scan
  match idcs? with
  | none => pure none
  | some idcs => do
    let acc ← item_loop ds pr idcs (List.range ds.number_of_images)
      (inventory, document, scan)
    pure (some {
      images := acc.images.map (Option.map pr.transformOf)
      shapes := acc.shapes
      texts := acc.texts
      image_pathsOut := acc.image_pathsOut
      tStart := acc.tStart
      tMiddle := acc.tMiddle
      tEnd := acc.tEnd
      idcsOut := (idcs.drop 1).dropLast })

/-- A training path, abstracted to `(parent folder, file name)`. -/
abbrev PPath := Nat × Nat

/-- `itertools.groupby(paths, key=lambda x: x.parent)` as used on line 32
of `src/data/datamodule.py`: group consecutive paths with equal parent. -/
def groupByParent : List PPath → List (List PPath)
  | [] => []
  | x :: xs =>
    match groupByParent xs with
    | [] => [[x]]
    | [] :: gs => [x] :: [] :: gs
    | (y :: g) :: gs =>
      if x.1 = y.1 then (x :: y :: g) :: gs else [x] :: (y :: g) :: gs

/-- Python `int()` truncation toward zero on a rational. -/
def pyInt (q : ℚ) : Int := if 0 ≤ q then q.floor else q.ceil

/-- Modelled from the spec: Python's built-in `round` (round half to
even), which the spec's `round(r * |groups|)` refers to; it is not part
of the source, which uses `int()` truncation instead. -/
def pyRound (q : ℚ) : Int :=
  if q - q.floor < 1 / 2 then q.floor
  else if 1 / 2 < q - q.floor then q.floor + 1
  else if q.floor % 2 = 0 then q.floor else q.floor + 1

/-- `split_training_paths` (`src/data/datamodule.py` lines 17-43).
`natsorted` and the seeded `random.shuffle` are external collaborators,
passed in as functions (the theorems assume they permute their input):
sort, group by parent folder, shuffle the groups, and split at
`int(len(groups) * split_ratio)`. -/
def split_training_paths (natsortF : List PPath → List PPath)
    (shuffleF : Nat → List (List PPath) → List (List PPath))
    (training_paths : List PPath) (split_ratio : ℚ) (seed : Nat) :
    List PPath × List PPath :=
  let sorted := natsortF training_paths
  let grouped_training_paths := groupByParent sorted
  let grouped_training_paths := shuffleF seed grouped_training_paths
  let split_idx :=
    (pyInt ((grouped_training_paths.length : ℚ) * split_ratio)).toNat
  ((grouped_training_paths.take split_idx).flatten,
   (grouped_training_paths.drop split_idx).flatten)

/-- Decidable equality of `Except` results, used to evaluate the embedded
code on concrete inputs. -/
instance {ε α : Type} [DecidableEq ε] [DecidableEq α] :
    DecidableEq (Except ε α) := fun a b =>
  match a, b with
  | .ok a, .ok b =>
    if h : a = b then .isTrue (by rw [h]) else .isFalse (by simp [h])
  | .error a, .error b =>
    if h : a = b then .isTrue (by rw [h]) else .isFalse (by simp [h])
  | .ok _, .error _ => .isFalse (by simp)
  | .error _, .ok _ => .isFalse (by simp)

/-- A well-formed hierarchy: every inventory and every document in it is
non-empty (the dataset's own construction only enforces the latter). -/
def ValidHier (paths : List (List (List Nat))) : Prop :=
  ∀ inv ∈ paths, inv ≠ [] ∧ ∀ doc ∈ inv, doc ≠ []

/-- A valid (inventory, document) position in the hierarchy. -/
def ValidPair (ds : DSData) (inventory document : Int) : Prop :=
  0 ≤ inventory ∧ ∃ inv, pyGet ds.image_paths inventory = some inv ∧
    0 ≤ document ∧ document < (inv.length : Int)

/-- The shuffle oracles of a whole sample only produce permutations. -/
def SampleOracle.Perm (o : SampleOracle) : Prop :=
  (∀ l, (o.fill.shuffle l).Perm l) ∧
    ∀ t, (o.nxt t).Perm ∧ (o.prv t).Perm

/-- The document-index projection of a coordinate (`idx[1]` in Python). -/
def docOf (t : Idx3) : Int := t.2.1

/-- The `start` label formula of `__getitem__` line 382, as a function of
the previous slot and the current value of the `document` variable. -/
def startLabel (prevSlot : Option Idx3) (document : Int) : Bool :=
  match prevSlot.map docOf with
  | none => true
  | some pd => decide (pd ≠ document)

/-- The identity shuffle, one concrete permutation oracle. -/
def idShuffle : List Idx3 → List Idx3 := id

/-- A step oracle whose draws are all zero and whose shuffle is `id`. -/
def zeroStep : StepOracle := ⟨0, 0, 0, 0, 0, idShuffle⟩

/-- A sample oracle whose draws are all zero: with all perturbation
probabilities equal to zero no perturbation ever triggers. -/
def zeroSample : SampleOracle :=
  ⟨⟨0, idShuffle⟩, fun _ => zeroStep, fun _ => zeroStep, ⟨0, 0, 0, 0, 0⟩⟩

/-- Concrete external providers: every image loads, page sizes are
non-degenerate. -/
def exProviders : Providers := ⟨fun p => some p, fun p => (p + 1, p + 2), fun p => p⟩

/-- One inventory holding three single-scan documents. -/
def dsThreeDocs : DSData := ⟨[[[0], [1], [2]]], "train", 1, true, false, 0, 0, 0⟩

/-- One inventory holding one two-scan document, window width 3. -/
def dsOneDoc : DSData := ⟨[[[10, 11]]], "train", 3, true, false, 0, 0, 0⟩

/-- Three single-document inventories with wraparound and cross-inventory
sampling. -/
def dsThreeInv : DSData := ⟨[[[10]], [[20]], [[30]]], "train", 1, false, true, 0, 0, 0⟩

/-- A single one-scan document with `prob_randomize_document_order = 1`. -/
def dsSingle : DSData := ⟨[[[9]]], "train", 3, true, false, 0, 1, 0⟩

/-- Two inventories (two documents, then one), same-inventory sampling,
wraparound enabled. -/
def dsTwoInv : DSData := ⟨[[[1], [2]], [[3]]], "train", 3, true, true, 0, 0, 0⟩

/-- Two single-document inventories with `prob_randomize_document_order = 1`
and cross-inventory sampling. -/
def dsTwoInvRand : DSData := ⟨[[[1]], [[2]]], "train", 3, false, false, 0, 1, 0⟩

/-- Ten paths in ten distinct parent folders. -/
def tenPaths : List PPath := (List.range 10).map fun k => (k, k)

theorem bind_ok {α β : Type} {e : Except PyErr α} {f : α → Except PyErr β}
    {b : β} (h : (e >>= f) = .ok b) : ∃ a, e = .ok a ∧ f a = .ok b := by
  cases e with
  | ok a => exact ⟨a, rfl, h⟩
  | error er => exact Except.noConfusion h

theorem pure_ok {α : Type} {a b : α}
    (h : (pure a : Except PyErr α) = .ok b) : a = b := by
  exact Except.ok.inj h

theorem pyGet_some_mem {α : Type} {l : List α} {i : Int} {a : α}
    (h : pyGet l i = some a) : a ∈ l := by
  unfold pyGet at h
  split at h
  · exact List.getElem?_mem h
  · split at h
    · exact List.getElem?_mem h
    · exact Option.noConfusion h

theorem pyGet_some_lt {α : Type} {l : List α} {i : Int} {a : α}
    (h0 : 0 ≤ i) (h : pyGet l i = some a) : i < (l.length : Int) := by
  unfold pyGet at h
  rw [if_pos h0] at h
  obtain ⟨hlt, -⟩ := List.getElem?_eq_some_iff.mp h
  omega

theorem pyGet_eq_some (α : Type) (l : List α) (i : Int)
    (h0 : 0 ≤ i) (h1 : i < (l.length : Int)) :
    ∃ a, pyGet l i = some a := by
  unfold pyGet
  rw [if_pos h0]
  have hlt : i.toNat < l.length := by omega
  exact ⟨l[i.toNat], List.getElem?_eq_getElem hlt⟩

theorem np_choice_ok {n c k : Nat} (h : np_choice n c = .ok k) :
    k < n := by
  unfold np_choice at h
  split at h
  · exact Except.noConfusion h
  · rename_i hn
    rw [← Except.ok.inj h]
    exact Nat.mod_lt _ (Nat.pos_of_ne_zero hn)

theorem np_choice_pos {n c : Nat} (h : 0 < n) :
    np_choice n c = .ok (c % n) := by
  unfold np_choice
  rw [if_neg (by omega)]

theorem rce_ok_bounds {high : Nat} {excl : Int} {c : Nat} {v : Int}
    (h : random_choice_except high excl c = .ok v) :
    excl < (high : Int) ∧ 0 ≤ v ∧ v < (high : Int) ∧ v ≠ excl := by
  unfold random_choice_except at h
  split at h
  · exact Except.noConfusion h
  · rename_i hlt
    obtain ⟨k, hk, hv⟩ := bind_ok h
    have hkb := np_choice_ok hk
    have hv' := Except.ok.inj hv
    rw [not_not] at hlt
    refine ⟨hlt, ?_, ?_, ?_⟩ <;>
      · rw [← hv']
        split <;> omega

theorem rce_complete {high : Nat} {excl v : Int}
    (h1 : 0 ≤ excl) (h2 : excl < (high : Int)) (h3 : 0 ≤ v)
    (h4 : v < (high : Int)) (h5 : v ≠ excl) :
    random_choice_except high excl (if v < excl then v else v - 1).toNat =
      .ok v := by
  unfold random_choice_except
  rw [if_neg (not_not_intro h2)]
  have hc : (if v < excl then v else v - 1).toNat < high - 1 := by
    split <;> omega
  rw [np_choice_pos (by omega)]
  show Except.ok _ = _
  congr 1
  rw [Nat.mod_eq_of_lt hc]
  split <;> rename_i hcase
  · rw [if_neg (by omega)]
    omega
  · rw [if_pos (by omega)]
    omega

theorem ok_bind {α β : Type} (a : α) (f : α → Except PyErr β) :
    (Except.ok a >>= f) = f a := rfl

theorem error_bind {α β : Type} (e : PyErr) (f : α → Except PyErr β) :
    ((Except.error e : Except PyErr α) >>= f) = .error e := rfl

theorem is_out_of_bounds_ok (ds : DSData) (i d s : Int) :
    ∃ b, is_out_of_bounds ds i d s = .ok b := by
  unfold is_out_of_bounds
  by_cases h1 : i < 0 ∨ d < 0 ∨ s < 0
  · exact ⟨true, by simp only [if_pos h1]⟩
  · by_cases h2 : (ds.image_paths.length : Int) ≤ i
    · exact ⟨true, by simp only [if_neg h1, if_pos h2]⟩
    · obtain ⟨inv, hinv⟩ := pyGet_eq_some _ ds.image_paths i (by omega) (by omega)
      by_cases h3 : (inv.length : Int) ≤ d
      · exact ⟨true, by simp only [if_neg h1, if_neg h2, hinv, if_pos h3]⟩
      · obtain ⟨doc, hdoc⟩ := pyGet_eq_some _ inv d (by omega) (by omega)
        exact ⟨decide ((doc.length : Int) ≤ s),
          by simp only [if_neg h1, if_neg h2, hinv, if_neg h3, hdoc]⟩

theorem valid_of_oob_false {ds : DSData} {i d s : Int}
    (h : is_out_of_bounds ds i d s = .ok false) : ValidPair ds i d := by
  unfold is_out_of_bounds at h
  by_cases h1 : i < 0 ∨ d < 0 ∨ s < 0
  · simp only [if_pos h1] at h
    exact absurd (Except.ok.inj h) (by simp)
  · simp only [if_neg h1] at h
    by_cases h2 : (ds.image_paths.length : Int) ≤ i
    · simp only [if_pos h2] at h
      exact absurd (Except.ok.inj h) (by simp)
    · simp only [if_neg h2] at h
      cases hg : pyGet ds.image_paths i with
      | none => rw [hg] at h; exact Except.noConfusion h
      | some inv =>
        simp only [hg] at h
        by_cases h3 : (inv.length : Int) ≤ d
        · simp only [if_pos h3] at h
          exact absurd (Except.ok.inj h) (by simp)
        · exact ⟨by omega, inv, hg, by omega, by omega⟩

theorem oob_false_of_valid {ds : DSData} {i d : Int} {inv : List (List Nat)}
    {doc : List Nat} (hne : doc ≠ [])
    (hp : ValidPair ds i d) (hinv : pyGet ds.image_paths i = some inv)
    (hdoc : pyGet inv d = some doc) :
    is_out_of_bounds ds i d 0 = .ok false := by
  obtain ⟨h0, inv', hinv', hd0, hdlt⟩ := hp
  rw [hinv'] at hinv
  have hinveq := Option.some.inj hinv
  subst hinveq
  have hilen : i < (ds.image_paths.length : Int) := pyGet_some_lt h0 hinv'
  have hpos : 0 < doc.length := List.length_pos.mpr hne
  unfold is_out_of_bounds
  simp only [if_neg (show ¬(i < 0 ∨ d < 0 ∨ (0:Int) < 0) by omega),
    if_neg (show ¬(ds.image_paths.length : Int) ≤ i by omega), hinv',
    if_neg (show ¬(inv'.length : Int) ≤ d by omega), hdoc]
  have : ¬((doc.length : Int) ≤ 0) := by omega
  simp [this]

theorem valid_pyGet_doc {ds : DSData} {i d : Int}
    (hp : ValidPair ds i d) :
    ∃ inv doc, pyGet ds.image_paths i = some inv ∧ pyGet inv d = some doc := by
  obtain ⟨h0, inv, hinv, hd0, hdlt⟩ := hp
  obtain ⟨doc, hdoc⟩ := pyGet_eq_some _ inv d hd0 hdlt
  exact ⟨inv, doc, hinv, hdoc⟩

theorem hier_doc_ne {paths : List (List (List Nat))}
    (hh : ValidHier paths) {i d : Int} {inv : List (List Nat)} {doc : List Nat}
    (hinv : pyGet paths i = some inv) (hdoc : pyGet inv d = some doc) :
    doc ≠ [] :=
  ((hh inv (pyGet_some_mem hinv)).2) doc (pyGet_some_mem hdoc)

theorem hier_inv_ne {paths : List (List (List Nat))}
    (hh : ValidHier paths) {i : Int} {inv : List (List Nat)}
    (hinv : pyGet paths i = some inv) : inv ≠ [] :=
  (hh inv (pyGet_some_mem hinv)).1

theorem get_all_scans_eq {ds : DSData} {i d : Int} {inv : List (List Nat)}
    {doc : List Nat} (hne : doc ≠ [])
    (hp : ValidPair ds i d) (hinv : pyGet ds.image_paths i = some inv)
    (hdoc : pyGet inv d = some doc) :
    get_all_scans_in_document ds i d =
      .ok ((List.range doc.length).map fun k => (i, d, Int.ofNat k)) := by
  have hoob := oob_false_of_valid hne hp hinv hdoc
  unfold get_all_scans_in_document
  rw [hoob, ok_bind]
  simp only [Bool.false_eq_true, if_false, hinv, hdoc]
  rfl

theorem get_all_scans_valid {ds : DSData} {i d : Int}
    (hh : ValidHier ds.image_paths) (hp : ValidPair ds i d) :
    ∃ l, get_all_scans_in_document ds i d = .ok l ∧ l ≠ [] := by
  obtain ⟨inv, doc, hinv, hdoc⟩ := valid_pyGet_doc hp
  have hne := hier_doc_ne hh hinv hdoc
  refine ⟨_, get_all_scans_eq hne hp hinv hdoc, ?_⟩
  have hpos : 0 < doc.length := List.length_pos.mpr hne
  intro hcon
  have hlen := congrArg List.length hcon
  rw [List.length_map, List.length_range, List.length_nil] at hlen
  omega

theorem get_all_scans_total (ds : DSData) (i d : Int) :
    ∃ l, get_all_scans_in_document ds i d = .ok l := by
  obtain ⟨b, hb⟩ := is_out_of_bounds_ok ds i d 0
  cases b with
  | true =>
    refine ⟨[], ?_⟩
    unfold get_all_scans_in_document
    rw [hb, ok_bind]
    rfl
  | false =>
    have hv := valid_of_oob_false hb
    obtain ⟨inv, doc, hinv, hdoc⟩ := valid_pyGet_doc hv
    refine ⟨(List.range doc.length).map fun k => (i, d, Int.ofNat k), ?_⟩
    unfold get_all_scans_in_document
    rw [hb, ok_bind]
    simp only [Bool.false_eq_true, if_false, hinv, hdoc]
    rfl

theorem valid_pair_doc0 {ds : DSData} (hh : ValidHier ds.image_paths)
    {a : Int} (h0 : 0 ≤ a) (hlt : a < (ds.image_paths.length : Int)) :
    ValidPair ds a 0 := by
  obtain ⟨inv, hinv⟩ := pyGet_eq_some _ ds.image_paths a h0 hlt
  have := List.length_pos.mpr (hier_inv_ne hh hinv)
  exact ⟨h0, inv, hinv, le_refl 0, by omega⟩

theorem valid_pair_last {ds : DSData} (hh : ValidHier ds.image_paths)
    {a : Int} {inv : List (List Nat)} (h0 : 0 ≤ a)
    (hinv : pyGet ds.image_paths a = some inv) :
    ValidPair ds a ((inv.length : Int) - 1) := by
  have := List.length_pos.mpr (hier_inv_ne hh hinv)
  exact ⟨h0, inv, hinv, by omega, by omega⟩

theorem gnd_ok_cases {ds : DSData} {i d : Int} {nd : Option (Int × Int)}
    (h : get_next_document ds i d = .ok nd) :
    nd = none ∨ ∃ p, nd = some p ∧ ValidPair ds p.1 p.2 := by
  unfold get_next_document at h
  obtain ⟨b, hb, hrest⟩ := bind_ok h
  cases b with
  | true => exact Or.inl (pure_ok hrest).symm
  | false =>
    have := (pure_ok hrest).symm
    exact Or.inr ⟨(i, d + 1), this, valid_of_oob_false hb⟩

theorem gpd_ok_cases {ds : DSData} {i d : Int} {nd : Option (Int × Int)}
    (h : get_prev_document ds i d = .ok nd) :
    nd = none ∨ ∃ p, nd = some p ∧ ValidPair ds p.1 p.2 := by
  unfold get_prev_document at h
  obtain ⟨b, hb, hrest⟩ := bind_ok h
  cases b with
  | true => exact Or.inl (pure_ok hrest).symm
  | false =>
    have := (pure_ok hrest).symm
    exact Or.inr ⟨(i, d - 1), this, valid_of_oob_false hb⟩

theorem gni_ok_cases {ds : DSData} {i : Int} {ni : Option Int}
    (h : get_next_inventory ds i = .ok ni) :
    ni = none ∨ ∃ a, ni = some a ∧ 0 ≤ a ∧
      a < (ds.image_paths.length : Int) := by
  unfold get_next_inventory at h
  obtain ⟨b, hb, hrest⟩ := bind_ok h
  cases b with
  | true => exact Or.inl (pure_ok hrest).symm
  | false =>
    obtain ⟨h0, inv, hinv, -, -⟩ := valid_of_oob_false hb
    exact Or.inr ⟨i + 1, (pure_ok hrest).symm, h0, pyGet_some_lt h0 hinv⟩

theorem gpi_ok_cases {ds : DSData} {i : Int} {ni : Option Int}
    (h : get_prev_inventory ds i = .ok ni) :
    ni = none ∨ ∃ a, ni = some a ∧ 0 ≤ a ∧
      a < (ds.image_paths.length : Int) := by
  unfold get_prev_inventory at h
  obtain ⟨b, hb, hrest⟩ := bind_ok h
  cases b with
  | true => exact Or.inl (pure_ok hrest).symm
  | false =>
    obtain ⟨h0, inv, hinv, -, -⟩ := valid_of_oob_false hb
    exact Or.inr ⟨i - 1, (pure_ok hrest).symm, h0, pyGet_some_lt h0 hinv⟩

theorem shuffle_block_ne {ds : DSData} {o : StepOracle}
    (hperm : o.Perm) {scans : List Idx3} (hne : scans ≠ []) :
    (if ds.prob_shuffle_document > o.randShuffle
      then o.shuffle scans else scans) ≠ [] := by
  split
  · intro hcon
    have := (hperm scans).length_eq
    rw [hcon] at this
    exact hne (List.length_eq_zero.mp this.symm)
  · exact hne


theorem pick_next_cases {ds : DSData} {o : StepOracle} {i d : Int}
    {nd : Option (Int × Int)}
    (hv : ValidPair ds i d)
    (h : pick_next_document ds o i d = .ok nd) :
    nd = none ∨ ∃ p, nd = some p ∧ ValidPair ds p.1 p.2 := by
  obtain ⟨h0i, inv, hinv, hd0, hdlt⟩ := hv
  unfold pick_next_document at h
  split at h
  · split at h
    · simp only [hinv] at h
      obtain ⟨d2, hd2, h'⟩ := bind_ok h
      obtain ⟨-, hd20, hd2B, -⟩ := rce_ok_bounds hd2
      exact Or.inr ⟨(i, d2), (pure_ok h').symm, h0i, inv, hinv, hd20, hd2B⟩
    · obtain ⟨ni, hni, h'⟩ := bind_ok h
      obtain ⟨-, hni0, hniB, -⟩ := rce_ok_bounds hni
      obtain ⟨inv2, hinv2⟩ := pyGet_eq_some _ ds.image_paths ni hni0 hniB
      simp only [hinv2] at h'
      obtain ⟨d2, hd2, h''⟩ := bind_ok h'
      have hd2B := np_choice_ok hd2
      exact Or.inr ⟨(ni, (d2 : Int)), (pure_ok h'').symm,
        hni0, inv2, hinv2, by omega, by omega⟩
  · exact gnd_ok_cases h

theorem pick_prev_cases {ds : DSData} {o : StepOracle} {i d : Int}
    {nd : Option (Int × Int)}
    (hv : ValidPair ds i d)
    (h : pick_prev_document ds o i d = .ok nd) :
    nd = none ∨ ∃ p, nd = some p ∧ ValidPair ds p.1 p.2 := by
  obtain ⟨h0i, inv, hinv, hd0, hdlt⟩ := hv
  unfold pick_prev_document at h
  split at h
  · split at h
    · simp only [hinv] at h
      obtain ⟨d2, hd2, h'⟩ := bind_ok h
      obtain ⟨-, hd20, hd2B, -⟩ := rce_ok_bounds hd2
      exact Or.inr ⟨(i, d2), (pure_ok h').symm, h0i, inv, hinv, hd20, hd2B⟩
    · obtain ⟨ni, hni, h'⟩ := bind_ok h
      obtain ⟨-, hni0, hniB, -⟩ := rce_ok_bounds hni
      obtain ⟨inv2, hinv2⟩ := pyGet_eq_some _ ds.image_paths ni hni0 hniB
      simp only [hinv2] at h'
      obtain ⟨d2, hd2, h''⟩ := bind_ok h'
      have hd2B := np_choice_ok hd2
      exact Or.inr ⟨(ni, (d2 : Int)), (pure_ok h'').symm,
        hni0, inv2, hinv2, by omega, by omega⟩
  · exact gpd_ok_cases h

theorem resolve_next_cases {ds : DSData} {o : StepOracle} {i d : Int}
    {nd : Option (Int × Int)}
    (hh : ValidHier ds.image_paths) (hv : ValidPair ds i d)
    (h : resolve_next_document ds o i d = .ok nd) :
    (nd = none ∧ ds.wrap_round = false) ∨
      ∃ p, nd = some p ∧ ValidPair ds p.1 p.2 := by
  have h0i := hv.1
  have hilen := pyGet_some_lt hv.1 hv.2.choose_spec.1
  unfold resolve_next_document at h
  obtain ⟨nid0, h1, h2⟩ := bind_ok h
  rcases pick_next_cases hv h1 with hb | ⟨p, hb, hpv⟩
  · subst hb
    cases hw : ds.wrap_round with
    | false =>
      simp only [hw, Bool.false_eq_true, if_false] at h2
      exact Or.inl ⟨(pure_ok h2).symm, rfl⟩
    | true =>
      simp only [hw, if_true] at h2
      split at h2
      · exact Or.inr ⟨(i, 0), (pure_ok h2).symm,
          valid_pair_doc0 hh hv.1 hilen⟩
      · obtain ⟨ni?, hni?, hpure⟩ := bind_ok h2
        rcases gni_ok_cases hni? with hnone | ⟨a, ha, ha0, haB⟩
        · subst hnone
          exact Or.inr ⟨(0, 0), (pure_ok hpure).symm,
            valid_pair_doc0 hh (le_refl 0) (by omega)⟩
        · subst ha
          exact Or.inr ⟨(a, 0), (pure_ok hpure).symm,
            valid_pair_doc0 hh ha0 haB⟩
  · subst hb
    exact Or.inr ⟨p, (pure_ok h2).symm, hpv⟩

theorem resolve_prev_cases {ds : DSData} {o : StepOracle} {i d : Int}
    {nd : Option (Int × Int)}
    (hh : ValidHier ds.image_paths) (hv : ValidPair ds i d)
    (h : resolve_prev_document ds o i d = .ok nd) :
    (nd = none ∧ ds.wrap_round = false) ∨
      ∃ p, nd = some p ∧ ValidPair ds p.1 p.2 := by
  have h0i := hv.1
  have hilen := pyGet_some_lt hv.1 hv.2.choose_spec.1
  unfold resolve_prev_document at h
  obtain ⟨pid0, h1, h2⟩ := bind_ok h
  rcases pick_prev_cases hv h1 with hb | ⟨p, hb, hpv⟩
  · subst hb
    cases hw : ds.wrap_round with
    | false =>
      simp only [hw, Bool.false_eq_true, if_false] at h2
      exact Or.inl ⟨(pure_ok h2).symm, rfl⟩
    | true =>
      simp only [hw, if_true] at h2
      split at h2
      · obtain ⟨p', hp', hpure⟩ := bind_ok h2
        unfold get_last_document at hp'
        rw [hv.2.choose_spec.1] at hp'
        have hpeq := (Except.ok.inj hp').symm
        subst hpeq
        exact Or.inr ⟨_, (pure_ok hpure).symm,
          valid_pair_last hh hv.1 hv.2.choose_spec.1⟩
      · obtain ⟨pi?, hpi?, h2'⟩ := bind_ok h2
        obtain ⟨p', hp', hpure⟩ := bind_ok h2'
        rcases gpi_ok_cases hpi? with hnone | ⟨a, ha, ha0, haB⟩
        · subst hnone
          have hlen0 : 0 < ds.image_paths.length := by omega
          obtain ⟨invL, hinvL⟩ := pyGet_eq_some _ ds.image_paths
            (get_last_inventory ds)
            (by unfold get_last_inventory; omega)
            (by unfold get_last_inventory; omega)
          unfold get_last_document at hp'
          simp only [Option.getD_none] at hp'
          rw [hinvL] at hp'
          have hpeq := (Except.ok.inj hp').symm
          subst hpeq
          exact Or.inr ⟨_, (pure_ok hpure).symm,
            valid_pair_last hh (by unfold get_last_inventory; omega) hinvL⟩
        · subst ha
          obtain ⟨invA, hinvA⟩ := pyGet_eq_some _ ds.image_paths a ha0 haB
          unfold get_last_document at hp'
          simp only [Option.getD_some] at hp'
          rw [hinvA] at hp'
          have hpeq := (Except.ok.inj hp').symm
          subst hpeq
          exact Or.inr ⟨_, (pure_ok hpure).symm,
            valid_pair_last hh ha0 hinvA⟩
  · subst hb
    exact Or.inr ⟨p, (pure_ok h2).symm, hpv⟩

theorem gsnd_tail_ok {ds : DSData} {o : StepOracle} {nid : Int × Int}
    {r : Option (List Idx3) × (Int × Int)}
    (hh : ValidHier ds.image_paths) (hperm : o.Perm)
    (hv : ValidPair ds nid.1 nid.2)
    (h : (get_all_scans_in_document ds nid.1 nid.2 >>= fun scans =>
      pure (some (if ds.prob_shuffle_document > o.randShuffle
        then o.shuffle scans else scans), nid)) = .ok r) :
    ∃ scans, r.1 = some scans ∧ scans ≠ [] ∧ ValidPair ds r.2.1 r.2.2 := by
  obtain ⟨scans0, hs, hp2⟩ := bind_ok h
  obtain ⟨l, hl, hlne⟩ := get_all_scans_valid hh hv
  rw [hs] at hl
  have heq := Except.ok.inj hl
  subst heq
  have hr := (pure_ok hp2).symm
  subst hr
  exact ⟨_, rfl, shuffle_block_ne hperm hlne, hv⟩

theorem gsnd_cases {ds : DSData} {o : StepOracle} {i d : Int}
    {r : Option (List Idx3) × (Int × Int)}
    (hh : ValidHier ds.image_paths) (hperm : o.Perm)
    (hv : ValidPair ds i d)
    (h : get_scans_in_next_document ds o i d = .ok r) :
    r = (none, (i, d)) ∨
      ∃ scans, r.1 = some scans ∧ scans ≠ [] ∧ ValidPair ds r.2.1 r.2.2 := by
  unfold get_scans_in_next_document at h
  obtain ⟨nid1, h1, h2⟩ := bind_ok h
  rcases resolve_next_cases hh hv h1 with ⟨hb, -⟩ | ⟨p, hb, hpv⟩
  · subst hb
    exact Or.inl (pure_ok h2).symm
  · subst hb
    exact Or.inr (gsnd_tail_ok hh hperm hpv h2)

theorem gspd_cases {ds : DSData} {o : StepOracle} {i d : Int}
    {r : Option (List Idx3) × (Int × Int)}
    (hh : ValidHier ds.image_paths) (hperm : o.Perm)
    (hv : ValidPair ds i d)
    (h : get_scans_in_prev_document ds o i d = .ok r) :
    r = (none, (i, d)) ∨
      ∃ scans, r.1 = some scans ∧ scans ≠ [] ∧ ValidPair ds r.2.1 r.2.2 := by
  unfold get_scans_in_prev_document at h
  obtain ⟨pid1, h1, h2⟩ := bind_ok h
  rcases resolve_prev_cases hh hv h1 with ⟨hb, -⟩ | ⟨p, hb, hpv⟩
  · subst hb
    exact Or.inl (pure_ok h2).symm
  · subst hb
    exact Or.inr (gsnd_tail_ok hh hperm hpv h2)

theorem gsnd_wrap_no_none {ds : DSData} {o : StepOracle} {i d : Int}
    {r : Option (List Idx3) × (Int × Int)}
    (hw : ds.wrap_round = true)
    (h : get_scans_in_next_document ds o i d = .ok r) : r.1 ≠ none := by
  unfold get_scans_in_next_document at h
  obtain ⟨nid1, h1, h2⟩ := bind_ok h
  cases nid1 with
  | some p =>
    obtain ⟨scans0, -, hp2⟩ := bind_ok h2
    rw [← pure_ok hp2]
    simp
  | none =>
    exfalso
    unfold resolve_next_document at h1
    obtain ⟨nid0, hp1, hp2⟩ := bind_ok h1
    cases nid0 with
    | some q => exact Option.noConfusion (pure_ok hp2)
    | none =>
      simp only [hw, if_true] at hp2
      split at hp2
      · exact Option.noConfusion (pure_ok hp2)
      · obtain ⟨ni?, -, hpure⟩ := bind_ok hp2
        exact Option.noConfusion (pure_ok hpure)

theorem gspd_wrap_no_none {ds : DSData} {o : StepOracle} {i d : Int}
    {r : Option (List Idx3) × (Int × Int)}
    (hw : ds.wrap_round = true)
    (h : get_scans_in_prev_document ds o i d = .ok r) : r.1 ≠ none := by
  unfold get_scans_in_prev_document at h
  obtain ⟨pid1, h1, h2⟩ := bind_ok h
  cases pid1 with
  | some p =>
    obtain ⟨scans0, -, hp2⟩ := bind_ok h2
    rw [← pure_ok hp2]
    simp
  | none =>
    exfalso
    unfold resolve_prev_document at h1
    obtain ⟨pid0, hp1, hp2⟩ := bind_ok h1
    cases pid0 with
    | some q => exact Option.noConfusion (pure_ok hp2)
    | none =>
      simp only [hw, if_true] at hp2
      split at hp2
      · obtain ⟨p', -, hpure⟩ := bind_ok hp2
        exact Option.noConfusion (pure_ok hpure)
      · obtain ⟨pi?, -, hp2'⟩ := bind_ok hp2
        obtain ⟨p', -, hpure⟩ := bind_ok hp2'
        exact Option.noConfusion (pure_ok hpure)

theorem next_loop_ok_length {ds : DSData} {o : Nat → StepOracle} :
    ∀ {fuel : Nat} {acc : List (Option Idx3)} {pair : Int × Int}
      {l : List (Option Idx3)},
      next_loop ds o fuel acc pair = .ok (some l) →
      ds.steps_forward ≤ l.length := by
  intro fuel
  induction fuel with
  | zero =>
    intro acc pair l h
    unfold next_loop at h
    split at h
    · rename_i hle
      have := Option.some.inj (pure_ok h)
      subst this
      exact hle
    · exact Option.noConfusion (pure_ok h)
  | succ fuel ih =>
    intro acc pair l h
    unfold next_loop at h
    split at h
    · rename_i hle
      have := Option.some.inj (Except.ok.inj h)
      subst this
      exact hle
    · obtain ⟨r, -, h2⟩ := bind_ok h
      split at h2
      · exact ih h2
      · exact ih h2

theorem prev_loop_ok_length {ds : DSData} {o : Nat → StepOracle} :
    ∀ {fuel : Nat} {acc : List (Option Idx3)} {pair : Int × Int}
      {l : List (Option Idx3)},
      prev_loop ds o fuel acc pair = .ok (some l) →
      ds.steps_back ≤ l.length := by
  intro fuel
  induction fuel with
  | zero =>
    intro acc pair l h
    unfold prev_loop at h
    split at h
    · rename_i hle
      have := Option.some.inj (pure_ok h)
      subst this
      exact hle
    · exact Option.noConfusion (pure_ok h)
  | succ fuel ih =>
    intro acc pair l h
    unfold prev_loop at h
    split at h
    · rename_i hle
      have := Option.some.inj (Except.ok.inj h)
      subst this
      exact hle
    · obtain ⟨r, -, h2⟩ := bind_ok h
      split at h2
      · exact ih h2
      · exact ih h2

theorem next_loop_no_none {ds : DSData} {o : Nat → StepOracle}
    (hw : ds.wrap_round = true) :
    ∀ {fuel : Nat} {acc : List (Option Idx3)} {pair : Int × Int}
      {l : List (Option Idx3)},
      (∀ x ∈ acc, x ≠ none) →
      next_loop ds o fuel acc pair = .ok (some l) →
      ∀ x ∈ l, x ≠ none := by
  intro fuel
  induction fuel with
  | zero =>
    intro acc pair l hacc h
    unfold next_loop at h
    split at h
    · have := Option.some.inj (pure_ok h)
      subst this
      exact hacc
    · exact Option.noConfusion (pure_ok h)
  | succ fuel ih =>
    intro acc pair l hacc h
    unfold next_loop at h
    split at h
    · have := Option.some.inj (Except.ok.inj h)
      subst this
      exact hacc
    · obtain ⟨r, hr, h2⟩ := bind_ok h
      split at h2
      · rename_i scans hnone
        exact absurd hnone (gsnd_wrap_no_none hw hr)
      · rename_i scans hsome
        refine ih ?_ h2
        intro x hx
        rcases List.mem_append.mp hx with hx1 | hx2
        · exact hacc x hx1
        · obtain ⟨y, -, hy⟩ := List.mem_map.mp hx2
          rw [← hy]
          simp

theorem prev_loop_no_none {ds : DSData} {o : Nat → StepOracle}
    (hw : ds.wrap_round = true) :
    ∀ {fuel : Nat} {acc : List (Option Idx3)} {pair : Int × Int}
      {l : List (Option Idx3)},
      (∀ x ∈ acc, x ≠ none) →
      prev_loop ds o fuel acc pair = .ok (some l) →
      ∀ x ∈ l, x ≠ none := by
  intro fuel
  induction fuel with
  | zero =>
    intro acc pair l hacc h
    unfold prev_loop at h
    split at h
    · have := Option.some.inj (pure_ok h)
      subst this
      exact hacc
    · exact Option.noConfusion (pure_ok h)
  | succ fuel ih =>
    intro acc pair l hacc h
    unfold prev_loop at h
    split at h
    · have := Option.some.inj (Except.ok.inj h)
      subst this
      exact hacc
    · obtain ⟨r, hr, h2⟩ := bind_ok h
      split at h2
      · rename_i hnone
        exact absurd hnone (gspd_wrap_no_none hw hr)
      · rename_i scans hsome
        refine ih ?_ h2
        intro x hx
        rcases List.mem_append.mp hx with hx1 | hx2
        · obtain ⟨y, -, hy⟩ := List.mem_map.mp hx1
          rw [← hy]
          simp
        · exact hacc x hx2

theorem next_loop_adequate {ds : DSData} {o : Nat → StepOracle}
    (hh : ValidHier ds.image_paths) (hperm : ∀ t, (o t).Perm) :
    ∀ {fuel : Nat} {acc : List (Option Idx3)} {pair : Int × Int},
      ValidPair ds pair.1 pair.2 →
      ds.steps_forward ≤ acc.length + fuel →
      next_loop ds o fuel acc pair ≠ .ok none := by
  intro fuel
  induction fuel with
  | zero =>
    intro acc pair hv hle h
    unfold next_loop at h
    rw [if_pos (by omega)] at h
    exact Option.noConfusion (pure_ok h)
  | succ fuel ih =>
    intro acc pair hv hle h
    unfold next_loop at h
    split at h
    · exact Option.noConfusion (Except.ok.inj h)
    · obtain ⟨r, hr, h2⟩ := bind_ok h
      rcases gsnd_cases hh (hperm fuel) hv hr with hcase | ⟨scans, h1, hne, hvr⟩
      · subst hcase
        split at h2
        · refine ih hv ?_ h2
          rw [List.length_append]
          simp only [List.length_cons, List.length_nil]
          omega
        · rename_i scans hsome
          exact Option.noConfusion hsome
      · split at h2
        · rename_i hnone
          rw [h1] at hnone
          exact Option.noConfusion hnone
        · rename_i scansB hsome
          rw [h1] at hsome
          have hseq := Option.some.inj hsome
          subst hseq
          refine ih hvr ?_ h2
          rw [List.length_append, List.length_map]
          have hpos : 0 < scans.length := List.length_pos.mpr hne
          omega

theorem prev_loop_adequate {ds : DSData} {o : Nat → StepOracle}
    (hh : ValidHier ds.image_paths) (hperm : ∀ t, (o t).Perm) :
    ∀ {fuel : Nat} {acc : List (Option Idx3)} {pair : Int × Int},
      ValidPair ds pair.1 pair.2 →
      ds.steps_back ≤ acc.length + fuel →
      prev_loop ds o fuel acc pair ≠ .ok none := by
  intro fuel
  induction fuel with
  | zero =>
    intro acc pair hv hle h
    unfold prev_loop at h
    rw [if_pos (by omega)] at h
    exact Option.noConfusion (pure_ok h)
  | succ fuel ih =>
    intro acc pair hv hle h
    unfold prev_loop at h
    split at h
    · exact Option.noConfusion (Except.ok.inj h)
    · obtain ⟨r, hr, h2⟩ := bind_ok h
      rcases gspd_cases hh (hperm fuel) hv hr with hcase | ⟨scans, h1, hne, hvr⟩
      · subst hcase
        split at h2
        · refine ih hv ?_ h2
          simp only [List.length_cons]
          omega
        · rename_i scans hsome
          exact Option.noConfusion hsome
      · split at h2
        · rename_i hnone
          rw [h1] at hnone
          exact Option.noConfusion hnone
        · rename_i scansB hsome
          rw [h1] at hsome
          have hseq := Option.some.inj hsome
          subst hseq
          refine ih hvr ?_ h2
          rw [List.length_append, List.length_map]
          have hpos : 0 < scans.length := List.length_pos.mpr hne
          omega

theorem get_previous_idcs_len {ds : DSData} {st : ScanState}
    {o : Nat → StepOracle} {i d s : Int} {p : List (Option Idx3)}
    (h : get_previous_idcs ds st o i d s = .ok (some p)) :
    p.length = ds.steps_back := by
  unfold get_previous_idcs at h
  obtain ⟨s0, -, h2⟩ := bind_ok h
  obtain ⟨r, hr, h3⟩ := bind_ok h2
  have hmap := pure_ok h3
  cases r with
  | none => exact Option.noConfusion hmap
  | some l0 =>
    have hlen := prev_loop_ok_length hr
    simp only [Option.map_some'] at hmap
    have := Option.some.inj hmap
    subst this
    rw [List.length_drop]
    omega

theorem get_next_idcs_len {ds : DSData} {st : ScanState}
    {o : Nat → StepOracle} {i d s : Int} {p : List (Option Idx3)}
    (h : get_next_idcs ds st o i d s = .ok (some p)) :
    p.length = ds.steps_forward := by
  unfold get_next_idcs at h
  obtain ⟨s0, -, h2⟩ := bind_ok h
  obtain ⟨r, hr, h3⟩ := bind_ok h2
  have hmap := pure_ok h3
  cases r with
  | none => exact Option.noConfusion hmap
  | some l0 =>
    have hlen := next_loop_ok_length hr
    simp only [Option.map_some'] at hmap
    have := Option.some.inj hmap
    subst this
    rw [List.length_take]
    omega

theorem get_previous_idcs_adequate {ds : DSData} {st : ScanState}
    {o : Nat → StepOracle} {i d s : Int}
    (hh : ValidHier ds.image_paths) (hperm : ∀ t, (o t).Perm)
    (hv : ValidPair ds i d) :
    get_previous_idcs ds st o i d s ≠ .ok none := by
  intro h
  unfold get_previous_idcs at h
  obtain ⟨s0, -, h2⟩ := bind_ok h
  obtain ⟨r, hr, h3⟩ := bind_ok h2
  have hmap := pure_ok h3
  cases r with
  | none => exact prev_loop_adequate hh hperm hv (by omega) hr
  | some l0 => exact Option.noConfusion hmap

theorem get_next_idcs_adequate {ds : DSData} {st : ScanState}
    {o : Nat → StepOracle} {i d s : Int}
    (hh : ValidHier ds.image_paths) (hperm : ∀ t, (o t).Perm)
    (hv : ValidPair ds i d) :
    get_next_idcs ds st o i d s ≠ .ok none := by
  intro h
  unfold get_next_idcs at h
  obtain ⟨s0, -, h2⟩ := bind_ok h
  obtain ⟨r, hr, h3⟩ := bind_ok h2
  have hmap := pure_ok h3
  cases r with
  | none => exact next_loop_adequate hh hperm hv (by omega) hr
  | some l0 => exact Option.noConfusion hmap

theorem get_previous_idcs_no_none {ds : DSData} {st : ScanState}
    {o : Nat → StepOracle} {i d s : Int} {p : List (Option Idx3)}
    (hw : ds.wrap_round = true)
    (h : get_previous_idcs ds st o i d s = .ok (some p)) :
    ∀ x ∈ p, x ≠ none := by
  unfold get_previous_idcs at h
  obtain ⟨s0, -, h2⟩ := bind_ok h
  obtain ⟨r, hr, h3⟩ := bind_ok h2
  have hmap := pure_ok h3
  cases r with
  | none => exact Option.noConfusion hmap
  | some l0 =>
    simp only [Option.map_some'] at hmap
    have := Option.some.inj hmap
    subst this
    intro x hx
    refine prev_loop_no_none hw ?_ hr x (List.mem_of_mem_drop hx)
    intro y hy
    obtain ⟨z, -, hz⟩ := List.mem_map.mp hy
    rw [← hz]; simp

theorem get_next_idcs_no_none {ds : DSData} {st : ScanState}
    {o : Nat → StepOracle} {i d s : Int} {p : List (Option Idx3)}
    (hw : ds.wrap_round = true)
    (h : get_next_idcs ds st o i d s = .ok (some p)) :
    ∀ x ∈ p, x ≠ none := by
  unfold get_next_idcs at h
  obtain ⟨s0, -, h2⟩ := bind_ok h
  obtain ⟨r, hr, h3⟩ := bind_ok h2
  have hmap := pure_ok h3
  cases r with
  | none => exact Option.noConfusion hmap
  | some l0 =>
    simp only [Option.map_some'] at hmap
    have := Option.some.inj hmap
    subst this
    intro x hx
    refine next_loop_no_none hw ?_ hr x (List.mem_of_mem_take hx)
    intro y hy
    obtain ⟨z, -, hz⟩ := List.mem_map.mp hy
    rw [← hz]; simp

theorem insert_shape {ds : DSData} {o : InsOracle}
    {idcs l : List (Option Idx3)}
    (h : insert_random_scan ds o idcs = .ok l) :
    l.length = idcs.length ∧
    l[idcs.length / 2]? = idcs[idcs.length / 2]? ∧
    ∀ x ∈ l, x ∈ idcs ∨ x ≠ none := by
  unfold insert_random_scan at h
  split at h
  · obtain ⟨pi, hpi, h2⟩ := bind_ok h
    have hpiB := np_choice_ok hpi
    set remaining := (List.range idcs.length).filter
      (fun p => p ≠ idcs.length / 2) with hrem
    have hip_mem : remaining.getD pi 0 ∈ remaining := by
      rw [List.getD_eq_getElem _ _ hpiB]
      exact List.getElem_mem hpiB
    have hip_ne : remaining.getD pi 0 ≠ idcs.length / 2 := by
      have := List.mem_filter.mp hip_mem
      simpa using this.2
    cases hmid : idcs[idcs.length / 2]? with
    | none => rw [hmid] at h2; exact Except.noConfusion h2
    | some slot =>
      rw [hmid] at h2
      cases slot with
      | none => exact Except.noConfusion h2
      | some trip =>
        obtain ⟨ti, td, ts⟩ := trip
        obtain ⟨coord?, -, h3⟩ := bind_ok h2
        cases coord? with
        | none =>
          have := pure_ok h3
          subst this
          exact ⟨rfl, hmid, fun x hx => Or.inl hx⟩
        | some c =>
          have := pure_ok h3
          subst this
          refine ⟨List.length_set .., ?_, ?_⟩
          · rw [List.getElem?_set_ne hip_ne]
            exact hmid
          · intro x hx
            rcases List.mem_or_eq_of_mem_set hx with hx1 | hx2
            · exact Or.inl hx1
            · subst hx2; exact Or.inr (by simp)
  · have := pure_ok h
    subst this
    exact ⟨rfl, rfl, fun x hx => Or.inl hx⟩

theorem build_idcs_parts {ds : DSData} {o : SampleOracle} {i d s : Int}
    {l : List (Option Idx3)}
    (h : build_idcs ds o i d s = .ok (some l)) :
    ∃ st p n, fill_next_prev_scans ds o.fill i d s = .ok st ∧
      get_previous_idcs ds st o.prv i d s = .ok (some p) ∧
      get_next_idcs ds st o.nxt i d s = .ok (some n) ∧
      p.length = ds.steps_back ∧ n.length = ds.steps_forward ∧
      insert_random_scan ds o.ins (p ++ [some (i, d, s)] ++ n) = .ok l := by
  unfold build_idcs at h
  obtain ⟨st, hst, h2⟩ := bind_ok h
  obtain ⟨p?, hp, h3⟩ := bind_ok h2
  obtain ⟨n?, hn, h4⟩ := bind_ok h3
  cases p? with
  | none =>
    cases n? with
    | none => exact Option.noConfusion (pure_ok h4)
    | some n => exact Option.noConfusion (pure_ok h4)
  | some p =>
    cases n? with
    | none => exact Option.noConfusion (pure_ok h4)
    | some n =>
      obtain ⟨l', hins, h5⟩ := bind_ok h4
      have := Option.some.inj (pure_ok h5)
      subst this
      exact ⟨st, p, n, hst, hp, hn, get_previous_idcs_len hp,
        get_next_idcs_len hn, hins⟩

/-- Claim C1: every successfully constructed window has length
`steps_back + 1 + steps_forward`, which equals `number_of_images + 2`;
the centre slot at position `steps_back` holds the centre coordinate
(never the missing sentinel), and the random insertion's excluded
position `len(window) // 2` equals `steps_back`, so the centre slot is
never overwritten. -/
theorem C1_window_shape (ds : DSData) (o : SampleOracle) (i d s : Int)
    (l : List (Option Idx3))
    (h : build_idcs ds o i d s = .ok (some l)) :
    l.length = ds.steps_back + 1 + ds.steps_forward ∧
    l.length = ds.number_of_images + 2 ∧
    l.length / 2 = ds.steps_back ∧
    l[ds.steps_back]? = some (some (i, d, s)) := by
  obtain ⟨st, p, n, -, -, -, hpl, hnl, hins⟩ := build_idcs_parts h
  obtain ⟨hlen, hmid, -⟩ := insert_shape hins
  have hlen0 : (p ++ [some (i, d, s)] ++ n).length =
      ds.steps_back + 1 + ds.steps_forward := by
    simp only [List.length_append, List.length_cons, List.length_nil,
      hpl, hnl]
  have harith : ds.steps_back + 1 + ds.steps_forward =
      ds.number_of_images + 2 ∧
      (ds.steps_back + 1 + ds.steps_forward) / 2 = ds.steps_back := by
    simp only [DSData.steps_back, DSData.steps_forward]
    constructor <;> omega
  have hdiv : (p ++ [some (i, d, s)] ++ n).length / 2 = ds.steps_back := by
    rw [hlen0]
    exact harith.2
  refine ⟨by omega, by omega, by omega, ?_⟩
  rw [← hdiv, hmid, hdiv]
  rw [List.getElem?_append_left
    (by simp only [List.length_append, List.length_cons, List.length_nil, hpl]
        omega)]
  rw [List.getElem?_append_right (by omega)]
  rw [hpl]
  simp

/-- Claim C1 witness: a concrete window construction. -/
theorem C1_window_shape_witness :
    build_idcs dsThreeDocs zeroSample 0 1 0 =
      .ok (some [some (0, 0, 0), some (0, 1, 0), some (0, 2, 0)]) ∧
    ([some (0, 0, 0), some (0, 1, 0), some (0, 2, 0)] :
      List (Option Idx3)).length = dsThreeDocs.number_of_images + 2 ∧
    ([some (0, 0, 0), some (0, 1, 0), some (0, 2, 0)] :
      List (Option Idx3))[dsThreeDocs.steps_back]? = some (some (0, 1, 0)) := by
  have h : build_idcs dsThreeDocs zeroSample 0 1 0 =
      .ok (some [some (0, 0, 0), some (0, 1, 0), some (0, 2, 0)]) := by decide
  have hc := C1_window_shape dsThreeDocs zeroSample 0 1 0 _ h
  exact ⟨h, hc.2.1, hc.2.2.2⟩

/-- Claim C10 (amended): on a hierarchy whose inventories and documents
are all non-empty, for every valid centre position and every outcome of
the random draws, the forward and backward cross-document walk loops
never exhaust their fuel (`steps_forward` resp. `steps_back`
iterations): each iteration either raises (randomized draw over an empty
support), appends a sentinel, or appends the non-empty scan list of a
valid document, so window construction always terminates with a full
window or a Python exception. -/
theorem C10_walk_termination (ds : DSData) (st : ScanState)
    (o : SampleOracle) (i d s : Int)
    (hh : ValidHier ds.image_paths)
    (hperm : o.Perm)
    (hv : ValidPair ds i d) :
    get_previous_idcs ds st o.prv i d s ≠ .ok none ∧
    get_next_idcs ds st o.nxt i d s ≠ .ok none ∧
    build_idcs ds o i d s ≠ .ok none := by
  refine ⟨get_previous_idcs_adequate hh (fun t => (hperm.2 t).2) hv,
    get_next_idcs_adequate hh (fun t => (hperm.2 t).1) hv, ?_⟩
  intro h
  unfold build_idcs at h
  obtain ⟨st', hst, h2⟩ := bind_ok h
  obtain ⟨p?, hp, h3⟩ := bind_ok h2
  obtain ⟨n?, hn, h4⟩ := bind_ok h3
  cases p? with
  | none => exact get_previous_idcs_adequate hh (fun t => (hperm.2 t).2) hv hp
  | some p =>
    cases n? with
    | none => exact get_next_idcs_adequate hh (fun t => (hperm.2 t).1) hv hn
    | some n =>
      obtain ⟨l', -, h5⟩ := bind_ok h4
      exact Option.noConfusion (pure_ok h5)

/-- Claim C10 counterexample: with one single-document inventory,
`sample_same_inventory = true` and the randomized document order
triggered, the forward walk raises `ValueError` (from
`np.random.choice(0)` inside `random_choice_except`) instead of growing
the collected list to `steps_forward` slots. -/
theorem C10_randomized_draw_raises :
    get_next_idcs dsSingle ⟨[], []⟩ (fun _ => zeroStep) 0 0 0 =
      .error .valueError ∧
    ValidHier dsSingle.image_paths ∧ ValidPair dsSingle 0 0 := by
  refine ⟨by decide, by unfold ValidHier; decide, ?_⟩
  exact ⟨by omega, [[9]], by decide, by omega, by decide⟩

/-- Claim C10 witness: the termination theorem applied to a concrete
dataset, centre and oracle. -/
theorem C10_walk_termination_witness :
    get_previous_idcs dsThreeDocs ⟨[], []⟩ (fun _ => zeroStep) 0 1 0 ≠
      .ok none ∧
    get_next_idcs dsThreeDocs ⟨[], []⟩ (fun _ => zeroStep) 0 1 0 ≠
      .ok none ∧
    build_idcs dsThreeDocs zeroSample 0 1 0 ≠ .ok none := by
  have hperm : zeroSample.Perm :=
    ⟨fun l => List.Perm.refl l,
     fun t => ⟨fun l => List.Perm.refl l, fun l => List.Perm.refl l⟩⟩
  have hv : ValidPair dsThreeDocs 0 1 :=
    ⟨by omega, [[0], [1], [2]], by decide, by omega, by decide⟩
  exact C10_walk_termination dsThreeDocs ⟨[], []⟩ zeroSample 0 1 0
    (by unfold ValidHier; decide) hperm hv

/-- Claim C6 (amended): with `wrap_round = true` no slot of a constructed
window is ever the missing sentinel; when the sequential forward walk
runs past the last document of the last inventory it continues at the
first document of the first inventory if `sample_same_inventory = false`,
but at the first document of the *current* inventory if
`sample_same_inventory = true`. -/
theorem C6_wrap_behaviour :
    (∀ (ds : DSData) (o : SampleOracle) (i d s : Int)
      (l : List (Option Idx3)),
      ds.wrap_round = true → build_idcs ds o i d s = .ok (some l) →
      ∀ x ∈ l, x ≠ none) ∧
    (∀ (ds : DSData) (o : StepOracle) (i d : Int),
      ds.wrap_round = true → ds.sample_same_inventory = false →
      ¬ ds.prob_randomize_document_order > o.randRandomize →
      get_next_document ds i d = .ok none →
      get_next_inventory ds i = .ok none →
      ∃ scans, get_scans_in_next_document ds o i d =
        .ok (some scans, (0, 0))) ∧
    (∀ (ds : DSData) (o : StepOracle) (i d : Int),
      ds.wrap_round = true → ds.sample_same_inventory = true →
      ¬ ds.prob_randomize_document_order > o.randRandomize →
      get_next_document ds i d = .ok none →
      ∃ scans, get_scans_in_next_document ds o i d =
        .ok (some scans, (i, 0))) := by
  refine ⟨?_, ?_, ?_⟩
  · intro ds o i d s l hw h x hx
    obtain ⟨st, p, n, -, hp, hn, -, -, hins⟩ := build_idcs_parts h
    obtain ⟨-, -, hmem⟩ := insert_shape hins
    rcases hmem x hx with hx0 | hxne
    · rcases List.mem_append.mp hx0 with hx1 | hx2
      · rcases List.mem_append.mp hx1 with hx3 | hx4
        · exact get_previous_idcs_no_none hw hp x hx3
        · rw [List.mem_singleton.mp hx4]
          simp
      · exact get_next_idcs_no_none hw hn x hx2
    · exact hxne
  · intro ds o i d hw hssi htrig hnd hni
    have hres : resolve_next_document ds o i d = .ok (some (0, 0)) := by
      unfold resolve_next_document pick_next_document
      rw [if_neg htrig, hnd, ok_bind]
      simp only [hw, if_true, hssi, Bool.false_eq_true, if_false]
      rw [hni, ok_bind]
      rfl
    obtain ⟨sc, hsc⟩ := get_all_scans_total ds 0 0
    refine ⟨if ds.prob_shuffle_document > o.randShuffle
      then o.shuffle sc else sc, ?_⟩
    unfold get_scans_in_next_document
    rw [hres, ok_bind]
    show (get_all_scans_in_document ds 0 0 >>= fun scans =>
      pure (some (if ds.prob_shuffle_document > o.randShuffle
        then o.shuffle scans else scans), ((0 : Int), (0 : Int)))) = _
    rw [hsc, ok_bind]
    rfl
  · intro ds o i d hw hssi htrig hnd
    have hres : resolve_next_document ds o i d = .ok (some (i, 0)) := by
      unfold resolve_next_document pick_next_document
      rw [if_neg htrig, hnd, ok_bind]
      simp only [hw, if_true, hssi]
      rfl
    obtain ⟨sc, hsc⟩ := get_all_scans_total ds i 0
    refine ⟨if ds.prob_shuffle_document > o.randShuffle
      then o.shuffle sc else sc, ?_⟩
    unfold get_scans_in_next_document
    rw [hres, ok_bind]
    show (get_all_scans_in_document ds i 0 >>= fun scans =>
      pure (some (if ds.prob_shuffle_document > o.randShuffle
        then o.shuffle scans else scans), (i, (0 : Int)))) = _
    rw [hsc, ok_bind]
    rfl

/-- Claim C6 counterexample: with `sample_same_inventory = true` and
`wrap_round = true`, running past the last document of the last
inventory (`get_next_document` returns `None`) wraps to the first
document of the *same* (last) inventory, `(1, 0)`, not the first
document of the first inventory `(0, 0)`. -/
theorem C6_wrap_same_inventory_counterexample :
    get_next_document dsTwoInv 1 0 = .ok none ∧
    get_scans_in_next_document dsTwoInv zeroStep 1 0 =
      .ok (some [(1, 0, 0)], (1, 0)) ∧
    ((1 : Int), (0 : Int)) ≠ ((0 : Int), (0 : Int)) := by
  exact ⟨by decide, by decide, by decide⟩

/-- Claim C6 witness: the no-sentinel guarantee applied to a concrete
wraparound window crossing two inventory boundaries. -/
theorem C6_wrap_behaviour_witness :
    build_idcs dsThreeInv zeroSample 1 0 0 =
      .ok (some [some (0, 0, 0), some (1, 0, 0), some (2, 0, 0)]) ∧
    ∀ x ∈ [some ((0 : Int), (0 : Int), (0 : Int)), some (1, 0, 0),
      some (2, 0, 0)], x ≠ (none : Option Idx3) := by
  have h : build_idcs dsThreeInv zeroSample 1 0 0 =
      .ok (some [some (0, 0, 0), some (1, 0, 0), some (2, 0, 0)]) := by decide
  exact ⟨h, C6_wrap_behaviour.1 dsThreeInv zeroSample 1 0 0 _ rfl h⟩

/-- Claim C5 (amended): with a valid mode and no empty documents,
construction succeeds if and only if `number_of_images > 0`; the three
probabilities are stored without any validation, so values outside
`[0, 1]` are accepted (the quantified `p1 p2 p3` play no role in the
outcome). -/
theorem C5_init_validation (image_paths : List (List (List Nat)))
    (n : Int) (ssi wrap : Bool) (p1 p2 p3 : ℚ)
    (hdocs : ∀ inv ∈ image_paths, ∀ doc ∈ inv, doc ≠ []) :
    (∃ ds, datasetInit image_paths "train" n ssi wrap p1 p2 p3 = .ok ds) ↔
      0 < n := by
  unfold datasetInit
  have hmode : ¬ ("train" ∉ (["train", "val", "test"] : List String)) := by
    simp
  rw [if_neg hmode]
  have hany : image_paths.any
      (fun inv => inv.any fun doc => doc.length < 1) = false := by
    rw [List.any_eq_false]
    intro inv hinv
    rw [Bool.not_eq_true, List.any_eq_false]
    intro doc hdoc
    have := hdocs inv hinv doc hdoc
    simp only [decide_eq_true_eq]
    have := List.length_pos.mpr this
    omega
  rw [if_neg (by rw [hany]; exact Bool.false_ne_true)]
  constructor
  · intro ⟨ds, hds⟩
    by_contra hn
    rw [if_pos hn] at hds
    exact Except.noConfusion hds
  · intro hn
    rw [if_neg (not_not_intro hn)]
    exact ⟨_, rfl⟩

/-- Claim C5 counterexample: a probability of `2` (outside `[0, 1]`) is
accepted by the constructor without any error. -/
theorem C5_probabilities_not_validated :
    datasetInit [[[0]]] "train" 3 true false 2 0 0 =
      .ok ⟨[[[0]]], "train", 3, true, false, 2, 0, 0⟩ ∧
    ¬ ((2 : ℚ) ≤ 1) := by
  exact ⟨by decide, by norm_num⟩

/-- Claim C5 witness: the validation theorem applied at concrete
arguments, including an out-of-range probability. -/
theorem C5_init_validation_witness :
    ∃ ds, datasetInit [[[0]]] "train" 3 true false 5 0 0 = .ok ds := by
  exact (C5_init_validation [[[0]]] 3 true false 5 0 0
    (by decide)).mpr (by omega)

/-- Claim C7 (amended): the guarded navigation primitives
(`is_out_of_bounds`, `get_next_document`, `get_prev_document`,
`get_next_inventory`, `get_prev_inventory`, `get_all_scans_in_document`)
never raise for any coordinate, and `get_all_scans_in_document` returns
the empty list for an out-of-bounds document; by contrast
`scan_in_document` and the same-document neighbour listings can raise
(see the counterexample). -/
theorem C7_guarded_primitives_total (ds : DSData) (i d s : Int) :
    (∃ b, is_out_of_bounds ds i d s = .ok b) ∧
    (∃ r, get_next_document ds i d = .ok r) ∧
    (∃ r, get_prev_document ds i d = .ok r) ∧
    (∃ r, get_next_inventory ds i = .ok r) ∧
    (∃ r, get_prev_inventory ds i = .ok r) ∧
    (∃ l, get_all_scans_in_document ds i d = .ok l ∧
      (is_out_of_bounds ds i d 0 = .ok true → l = [])) := by
  refine ⟨is_out_of_bounds_ok ds i d s, ?_, ?_, ?_, ?_, ?_⟩
  · obtain ⟨b, hb⟩ := is_out_of_bounds_ok ds i (d + 1) 0
    unfold get_next_document
    rw [hb, ok_bind]
    cases b with
    | true => exact ⟨none, rfl⟩
    | false => exact ⟨some (i, d + 1), rfl⟩
  · obtain ⟨b, hb⟩ := is_out_of_bounds_ok ds i (d - 1) 0
    unfold get_prev_document
    rw [hb, ok_bind]
    cases b with
    | true => exact ⟨none, rfl⟩
    | false => exact ⟨some (i, d - 1), rfl⟩
  · obtain ⟨b, hb⟩ := is_out_of_bounds_ok ds (i + 1) 0 0
    unfold get_next_inventory
    rw [hb, ok_bind]
    cases b with
    | true => exact ⟨none, rfl⟩
    | false => exact ⟨some (i + 1), rfl⟩
  · obtain ⟨b, hb⟩ := is_out_of_bounds_ok ds (i - 1) 0 0
    unfold get_prev_inventory
    rw [hb, ok_bind]
    cases b with
    | true => exact ⟨none, rfl⟩
    | false => exact ⟨some (i - 1), rfl⟩
  · obtain ⟨b, hb⟩ := is_out_of_bounds_ok ds i d 0
    cases b with
    | true =>
      refine ⟨[], ?_, fun _ => rfl⟩
      unfold get_all_scans_in_document
      rw [hb, ok_bind]
      rfl
    | false =>
      obtain ⟨l, hl⟩ := get_all_scans_total ds i d
      refine ⟨l, hl, fun hcon => ?_⟩
      rw [hb] at hcon
      exact absurd (Except.ok.inj hcon) (by simp)

/-- Claim C7 counterexample: `scan_in_document` raises `IndexError` for
an out-of-range inventory, and the same-document neighbour listings
raise `AssertionError` for an out-of-bounds scan, contradicting the
claim that these primitives never raise. -/
theorem C7_unguarded_primitives_raise :
    scan_in_document dsSingle 1 0 0 = .error .indexError ∧
    get_next_scans_in_document dsSingle ⟨[], []⟩ 0 0 5 =
      .error .assertError ∧
    get_prev_scans_in_document dsSingle ⟨[], []⟩ 0 0 (-1) =
      .error .assertError := by
  exact ⟨by decide, by decide, by decide⟩

theorem gsnd_of_resolve {ds : DSData} {o : StepOracle} {i d : Int}
    {p : Int × Int}
    (h : resolve_next_document ds o i d = .ok (some p)) :
    ∃ sc, get_scans_in_next_document ds o i d =
        .ok (some (if ds.prob_shuffle_document > o.randShuffle
          then o.shuffle sc else sc), p) ∧
      get_all_scans_in_document ds p.1 p.2 = .ok sc := by
  obtain ⟨sc, hsc⟩ := get_all_scans_total ds p.1 p.2
  refine ⟨sc, ?_, hsc⟩
  unfold get_scans_in_next_document
  rw [h, ok_bind]
  show (get_all_scans_in_document ds p.1 p.2 >>= fun scans =>
    pure (some (if ds.prob_shuffle_document > o.randShuffle
      then o.shuffle scans else scans), p)) = _
  rw [hsc, ok_bind]
  rfl

theorem gsnd_rand_cross_sound {ds : DSData} {o : StepOracle} {i d : Int}
    {r : Option (List Idx3) × (Int × Int)}
    (htrig : ds.prob_randomize_document_order > o.randRandomize)
    (hssi : ds.sample_same_inventory = false)
    (h : get_scans_in_next_document ds o i d = .ok r) :
    r.2.1 ≠ i ∧ 0 ≤ r.2.1 ∧ r.2.1 < (ds.image_paths.length : Int) ∧
      ∃ inv2, pyGet ds.image_paths r.2.1 = some inv2 ∧
        0 ≤ r.2.2 ∧ r.2.2 < (inv2.length : Int) := by
  unfold get_scans_in_next_document at h
  obtain ⟨nid1, hres, h2⟩ := bind_ok h
  unfold resolve_next_document at hres
  obtain ⟨nid0, hpick, hres2⟩ := bind_ok hres
  unfold pick_next_document at hpick
  rw [if_pos htrig] at hpick
  rw [hssi] at hpick
  simp only [Bool.false_eq_true, if_false] at hpick
  obtain ⟨ni, hni, hp'⟩ := bind_ok hpick
  obtain ⟨-, hni0, hniB, hnine⟩ := rce_ok_bounds hni
  cases hg : pyGet ds.image_paths ni with
  | none => rw [hg] at hp'; exact Except.noConfusion hp'
  | some inv2 =>
    simp only [hg] at hp'
    obtain ⟨d2, hd2, hp''⟩ := bind_ok hp'
    have hd2B := np_choice_ok hd2
    have hn0 := (pure_ok hp'').symm
    subst hn0
    have hn1 := (pure_ok hres2).symm
    subst hn1
    obtain ⟨scans0, -, hp2⟩ := bind_ok h2
    have hr := (pure_ok hp2).symm
    subst hr
    refine ⟨hnine, hni0, hniB, inv2, hg, ?_, ?_⟩
    · show (0 : Int) ≤ (d2 : Int)
      omega
    · show ((d2 : Int)) < (inv2.length : Int)
      omega

/-- Claim C8 (amended): in randomized document-order mode the support of
the draw is as follows.  With `sample_same_inventory = true` the next
document is drawn from the current inventory excluding exactly the
current document (soundness and completeness).  With
`sample_same_inventory = false` the inventory is drawn uniformly from
all inventories *excluding the current one* (not "none excluded" as the
claim stated), then a document uniformly within the drawn inventory with
no exclusion. -/
theorem C8_randomized_support :
    (∀ (ds : DSData) (o : StepOracle) (i d : Int)
      (r : Option (List Idx3) × (Int × Int)),
      ds.prob_randomize_document_order > o.randRandomize →
      ds.sample_same_inventory = true →
      get_scans_in_next_document ds o i d = .ok r →
      ∃ inv, pyGet ds.image_paths i = some inv ∧
        r.2.1 = i ∧ r.2.2 ≠ d ∧ 0 ≤ r.2.2 ∧ r.2.2 < (inv.length : Int)) ∧
    (∀ (ds : DSData) (o : StepOracle) (i d : Int)
      (r : Option (List Idx3) × (Int × Int)),
      ds.prob_randomize_document_order > o.randRandomize →
      ds.sample_same_inventory = false →
      get_scans_in_next_document ds o i d = .ok r →
      r.2.1 ≠ i ∧ 0 ≤ r.2.1 ∧ r.2.1 < (ds.image_paths.length : Int) ∧
        ∃ inv2, pyGet ds.image_paths r.2.1 = some inv2 ∧
          0 ≤ r.2.2 ∧ r.2.2 < (inv2.length : Int)) ∧
    (∀ (ds : DSData) (o : StepOracle) (i d d' : Int)
      (inv : List (List Nat)),
      ds.prob_randomize_document_order > o.randRandomize →
      ds.sample_same_inventory = true →
      pyGet ds.image_paths i = some inv →
      0 ≤ d → d < (inv.length : Int) →
      0 ≤ d' → d' < (inv.length : Int) → d' ≠ d →
      ∃ c scans, get_scans_in_next_document ds
        { o with docChoice := c } i d = .ok (some scans, (i, d'))) ∧
    (∀ (ds : DSData) (o : StepOracle) (i d i' d' : Int)
      (inv2 : List (List Nat)),
      ds.prob_randomize_document_order > o.randRandomize →
      ds.sample_same_inventory = false →
      0 ≤ i → i < (ds.image_paths.length : Int) →
      0 ≤ i' → i' < (ds.image_paths.length : Int) → i' ≠ i →
      pyGet ds.image_paths i' = some inv2 →
      0 ≤ d' → d' < (inv2.length : Int) →
      ∃ c c2 scans, get_scans_in_next_document ds
        { o with invChoice := c, docChoice2 := c2 } i d =
          .ok (some scans, (i', d'))) := by
  refine ⟨?_, ?_, ?_, ?_⟩
  · intro ds o i d r htrig hssi h
    unfold get_scans_in_next_document at h
    obtain ⟨nid1, hres, h2⟩ := bind_ok h
    unfold resolve_next_document at hres
    obtain ⟨nid0, hpick, hres2⟩ := bind_ok hres
    unfold pick_next_document at hpick
    rw [if_pos htrig] at hpick
    rw [hssi, if_pos rfl] at hpick
    cases hg : pyGet ds.image_paths i with
    | none => rw [hg] at hpick; exact Except.noConfusion hpick
    | some inv =>
      simp only [hg] at hpick
      obtain ⟨d2, hd2, hp'⟩ := bind_ok hpick
      obtain ⟨hdlt, hd20, hd2B, hd2ne⟩ := rce_ok_bounds hd2
      have hn0 := (pure_ok hp').symm
      subst hn0
      have hn1 := (pure_ok hres2).symm
      subst hn1
      obtain ⟨scans0, -, hp2⟩ := bind_ok h2
      have hr := (pure_ok hp2).symm
      subst hr
      exact ⟨inv, rfl, rfl, hd2ne, hd20, hd2B⟩
  · intro ds o i d r htrig hssi h
    exact gsnd_rand_cross_sound htrig hssi h
  · intro ds o i d d' inv htrig hssi hinv hd0 hdlt hd'0 hd'lt hne
    refine ⟨(if d' < d then d' else d' - 1).toNat, ?_⟩
    have hpick : pick_next_document ds
        { o with docChoice := (if d' < d then d' else d' - 1).toNat } i d =
        .ok (some (i, d')) := by
      unfold pick_next_document
      rw [if_pos htrig, hssi, if_pos rfl]
      simp only [hinv]
      rw [rce_complete hd0 hdlt hd'0 hd'lt hne, ok_bind]
      rfl
    have hres : resolve_next_document ds
        { o with docChoice := (if d' < d then d' else d' - 1).toNat } i d =
        .ok (some (i, d')) := by
      unfold resolve_next_document
      rw [hpick, ok_bind]
      rfl
    obtain ⟨sc, hg, -⟩ := gsnd_of_resolve hres
    exact ⟨_, hg⟩
  · intro ds o i d i' d' inv2 htrig hssi hi0 hiB hi'0 hi'B hne hinv2 hd'0 hd'lt
    refine ⟨(if i' < i then i' else i' - 1).toNat, d'.toNat, ?_⟩
    have hrce := rce_complete hi0 hiB hi'0 hi'B hne
    have hpick : pick_next_document ds
        { o with
          invChoice := (if i' < i then i' else i' - 1).toNat,
          docChoice2 := d'.toNat } i d = .ok (some (i', d')) := by
      unfold pick_next_document
      rw [if_pos htrig, hssi]
      simp only [Bool.false_eq_true, if_false]
      rw [hrce, ok_bind]
      simp only [hinv2]
      rw [np_choice_pos (by omega), ok_bind]
      have hmod : ((d'.toNat % inv2.length : Nat) : Int) = d' := by
        rw [Nat.mod_eq_of_lt (by omega)]
        omega
      rw [hmod]
      rfl
    have hres : resolve_next_document ds
        { o with
          invChoice := (if i' < i then i' else i' - 1).toNat,
          docChoice2 := d'.toNat } i d = .ok (some (i', d')) := by
      unfold resolve_next_document
      rw [hpick, ok_bind]
      rfl
    obtain ⟨sc, hg, -⟩ := gsnd_of_resolve hres
    exact ⟨_, hg⟩

/-- Claim C8 counterexample: with two inventories and the randomized
mode triggered at centre inventory `0` (a zero `rand` draw), no outcome
of the remaining draws ever selects inventory `0` — the current
inventory is excluded from the inventory draw, contradicting "drawing an
inventory uniformly at random first, excluding none". -/
theorem C8_inventory_draw_excludes_current :
    ¬ ∃ (o : StepOracle), o.randRandomize = 0 ∧
      ∃ scans d, get_scans_in_next_document dsTwoInvRand o 0 0 =
        .ok (scans, (0, d)) := by
  rintro ⟨o, hr0, scans, d, h⟩
  have htrig : dsTwoInvRand.prob_randomize_document_order >
      o.randRandomize := by
    rw [hr0]
    decide
  have hsound := gsnd_rand_cross_sound htrig (by decide) h
  exact hsound.1 rfl

/-- Claim C8 witness: the support theorem applied concretely — with two
single-document inventories and centre inventory `0`, inventory `1` is
reachable by some draw. -/
theorem C8_randomized_support_witness :
    ∃ c c2 scans, get_scans_in_next_document dsTwoInvRand
      { zeroStep with invChoice := c, docChoice2 := c2 } 0 0 =
        .ok (some scans, (1, 0)) := by
  exact C8_randomized_support.2.2.2 dsTwoInvRand zeroStep 0 0 1 0 [[2]]
    (by decide) (by decide) (by omega) (by decide) (by omega) (by decide)
    (by decide) (by decide) (by omega) (by decide)

theorem groupByParent_flatten : ∀ l : List PPath,
    (groupByParent l).flatten = l := by
  intro l
  induction l with
  | nil => rfl
  | cons x xs ih =>
    cases hg : groupByParent xs with
    | nil =>
      have hxs : xs = [] := by
        rw [hg] at ih
        simpa using ih.symm
      subst hxs
      rfl
    | cons g gs =>
      cases g with
      | nil =>
        simp only [groupByParent, hg, List.flatten_cons, List.nil_append]
        rw [hg] at ih
        simp only [List.flatten_cons, List.nil_append] at ih
        simp [ih]
      | cons y g' =>
        simp only [groupByParent, hg]
        rw [hg] at ih
        simp only [List.flatten_cons, List.cons_append] at ih
        split
        · simp [ih]
        · simp [ih]

/-- Claim C9 (amended): the split planner sorts, groups by parent,
shuffles the groups, and takes the first `int(|groups| * r)` groups
(Python `int()` truncation, not `round`) as training, the rest as
validation; the two group lists partition the shuffled group list, and
the flattened outputs are a permutation of the input paths. -/
theorem C9_split_planner (natsortF : List PPath → List PPath)
    (shuffleF : Nat → List (List PPath) → List (List PPath))
    (hsort : ∀ l, (natsortF l).Perm l)
    (hshuf : ∀ sd l, (shuffleF sd l).Perm l)
    (paths : List PPath) (r : ℚ) (seed : Nat) :
    ∃ gtr gva : List (List PPath),
      (split_training_paths natsortF shuffleF paths r seed).1 =
        gtr.flatten ∧
      (split_training_paths natsortF shuffleF paths r seed).2 =
        gva.flatten ∧
      gtr.length = min
        (pyInt (((groupByParent (natsortF paths)).length : ℚ) * r)).toNat
        (groupByParent (natsortF paths)).length ∧
      gtr.length + gva.length = (groupByParent (natsortF paths)).length ∧
      (gtr ++ gva).Perm (groupByParent (natsortF paths)) ∧
      ((split_training_paths natsortF shuffleF paths r seed).1 ++
        (split_training_paths natsortF shuffleF paths r seed).2).Perm
          paths := by
  have hperm := hshuf seed (groupByParent (natsortF paths))
  have hlen := hperm.length_eq
  refine ⟨(shuffleF seed (groupByParent (natsortF paths))).take
      (pyInt (((shuffleF seed (groupByParent (natsortF paths))).length : ℚ)
        * r)).toNat,
    (shuffleF seed (groupByParent (natsortF paths))).drop
      (pyInt (((shuffleF seed (groupByParent (natsortF paths))).length : ℚ)
        * r)).toNat, rfl, rfl, ?_, ?_, ?_, ?_⟩
  · rw [List.length_take, hlen]
  · rw [List.length_take, List.length_drop, hlen]
    omega
  · rw [List.take_append_drop]
    exact hperm
  · have hj : ((shuffleF seed (groupByParent (natsortF paths))).take
        (pyInt (((shuffleF seed (groupByParent (natsortF paths))).length :
          ℚ) * r)).toNat ++
      (shuffleF seed (groupByParent (natsortF paths))).drop
        (pyInt (((shuffleF seed (groupByParent (natsortF paths))).length :
          ℚ) * r)).toNat) =
        shuffleF seed (groupByParent (natsortF paths)) :=
      List.take_append_drop _ _
    show ((split_training_paths natsortF shuffleF paths r seed).1 ++
      (split_training_paths natsortF shuffleF paths r seed).2).Perm paths
    unfold split_training_paths
    rw [← List.flatten_append, hj]
    have h1 := List.Perm.flatten hperm
    rw [groupByParent_flatten] at h1
    exact h1.trans (hsort paths)

theorem split_training_paths_eval (natsortF : List PPath → List PPath)
    (shuffleF : Nat → List (List PPath) → List (List PPath))
    (paths : List PPath) (r : ℚ) (seed : Nat) (k : Nat)
    (hk : (pyInt (((shuffleF seed (groupByParent (natsortF paths))).length :
      ℚ) * r)).toNat = k) :
    split_training_paths natsortF shuffleF paths r seed =
      (((shuffleF seed (groupByParent (natsortF paths))).take k).flatten,
       ((shuffleF seed (groupByParent (natsortF paths))).drop k).flatten) := by
  simp only [split_training_paths]
  rw [hk]

theorem tenPaths_group_len :
    ((fun (_ : Nat) (l : List (List PPath)) => l) 42
      (groupByParent (id tenPaths))).length = 10 := by decide

/-- Claim C9 counterexample: with split ratio `3/4` on ten single-path
groups the code takes `int(10 * 0.75) = 7` training groups, while
Python's `round(7.5) = 8`; the claim's `round(r * |groups|)` rule does
not describe the code. -/
theorem C9_int_truncation_not_round :
    (split_training_paths id (fun _ l => l) tenPaths (3 / 4) 42).1.length
      = 7 ∧
    (groupByParent (id tenPaths)).length = 10 ∧
    pyRound (((10 : Nat) : ℚ) * (3 / 4)) = 8 ∧ (7 : Nat) ≠ 8 := by
  have hq : ((10 : Nat) : ℚ) * (3 / 4) = 15 / 2 := by norm_num
  have hk : (pyInt ((((fun (_ : Nat) (l : List (List PPath)) => l) 42
      (groupByParent (id tenPaths))).length : ℚ) * (3 / 4))).toNat = 7 := by
    rw [tenPaths_group_len, hq]
    unfold pyInt
    rw [if_pos (by norm_num)]
    norm_num [Rat.floor_def']
    decide
  have hsplit := split_training_paths_eval id (fun _ l => l) tenPaths
    (3 / 4) 42 7 hk
  refine ⟨?_, by decide, ?_, by decide⟩
  · rw [hsplit]
    decide
  · unfold pyRound
    rw [hq]
    have hf : (15 / 2 : ℚ).floor = 7 := by norm_num [Rat.floor_def']
    rw [hf]
    norm_num

/-- Claim C9 witness: the split theorem at the claim's own instance —
ratio `4/5`, ten single-document groups, a fixed seed — which yields 8
training and 2 validation groups partitioning the input. -/
theorem C9_split_planner_witness :
    (split_training_paths id (fun _ l => l) tenPaths (4 / 5) 42).1.length
      = 8 ∧
    (split_training_paths id (fun _ l => l) tenPaths (4 / 5) 42).2.length
      = 2 ∧
    ∃ gtr gva : List (List PPath),
      (split_training_paths id (fun _ l => l) tenPaths (4 / 5) 42).1 =
        gtr.flatten ∧
      (split_training_paths id (fun _ l => l) tenPaths (4 / 5) 42).2 =
        gva.flatten ∧
      gtr.length = min
        (pyInt (((groupByParent (id tenPaths)).length : ℚ) * (4 / 5))).toNat
        (groupByParent (id tenPaths)).length ∧
      gtr.length + gva.length = (groupByParent (id tenPaths)).length ∧
      (gtr ++ gva).Perm (groupByParent (id tenPaths)) ∧
      ((split_training_paths id (fun _ l => l) tenPaths (4 / 5) 42).1 ++
        (split_training_paths id (fun _ l => l) tenPaths (4 / 5) 42).2).Perm
          tenPaths := by
  have hq : ((10 : Nat) : ℚ) * (4 / 5) = 8 := by norm_num
  have hk : (pyInt ((((fun (_ : Nat) (l : List (List PPath)) => l) 42
      (groupByParent (id tenPaths))).length : ℚ) * (4 / 5))).toNat = 8 := by
    rw [tenPaths_group_len, hq]
    unfold pyInt
    rw [if_pos (by norm_num)]
    norm_num [Rat.floor_def']
    decide
  have hsplit := split_training_paths_eval id (fun _ l => l) tenPaths
    (4 / 5) 42 8 hk
  refine ⟨by rw [hsplit]; decide, by rw [hsplit]; decide, ?_⟩
  exact C9_split_planner id (fun _ l => l) (fun l => List.Perm.refl l)
    (fun _ l => List.Perm.refl l) tenPaths (4 / 5) 42

theorem liftIdx_ok {α : Type} {o : Option α} {a : α}
    (h : liftIdx o = .ok a) : o = some a := by
  cases o with
  | none => exact Except.noConfusion h
  | some b => exact congrArg some (Except.ok.inj h)

theorem startLabel_iff (ps : Option Idx3) (doc : Int) :
    startLabel ps doc = true ↔
      (ps = none ∨ ps.map docOf ≠ some doc) := by
  cases ps with
  | none => simp [startLabel]
  | some t => simp [startLabel, docOf]

theorem item_loop_targets {ds : DSData} {pr : Providers}
    {idcs : List (Option Idx3)}
    (hmode : ds.mode = "train" ∨ ds.mode = "val") :
    ∀ (is : List Nat) (σ : Int × Int × Int) (acc : ItemAcc),
      item_loop ds pr idcs is σ = .ok acc →
      ∀ (k i : Nat) (c : Idx3), is[k]? = some i →
        idcs[i + 1]? = some (some c) →
        ∃ ps ns,
          idcs[i]? = some ps ∧ idcs[i + 2]? = some ns ∧
          acc.tStart[k]? =
            some (if startLabel ps (docOf c) then 1 else 0) ∧
          acc.tEnd[k]? =
            some (if startLabel ns (docOf c) then 1 else 0) ∧
          acc.tMiddle[k]? =
            some (if !startLabel ps (docOf c) && !startLabel ns (docOf c)
              then 1 else 0) := by
  intro is
  induction is with
  | nil =>
    intro σ acc h k i c hk hslot
    rw [List.getElem?_nil] at hk
    exact Option.noConfusion hk
  | cons i0 rest ih =>
    intro σ acc h k i c hk hslot
    obtain ⟨s1, s2, s3⟩ := σ
    unfold item_loop at h
    obtain ⟨pidx, hpidx, h⟩ := bind_ok h
    obtain ⟨cidx, hcidx, h⟩ := bind_ok h
    obtain ⟨nidx, hnidx, h⟩ := bind_ok h
    obtain ⟨st, hst, h⟩ := bind_ok h
    obtain ⟨ipath, hipath, h⟩ := bind_ok h
    obtain ⟨ts, hts, h⟩ := bind_ok h
    obtain ⟨acc', hacc', h⟩ := bind_ok h
    have hmode' : ds.mode ∈ ["train", "val"] := by
      rcases hmode with h1 | h1 <;> simp [h1]
    rw [if_pos hmode'] at h
    have hacceq := (pure_ok h).symm
    subst hacceq
    cases k with
    | zero =>
      simp only [List.getElem?_cons_zero] at hk
      have hieq := Option.some.inj hk
      subst hieq
      have hcx := liftIdx_ok hcidx
      rw [hslot] at hcx
      have hcidx_eq := (Option.some.inj hcx).symm
      subst hcidx_eq
      have hpx := liftIdx_ok hpidx
      have hnx := liftIdx_ok hnidx
      obtain ⟨c1, c2, c3⟩ := c
      unfold current_slot at hst
      obtain ⟨img, himg, hst2⟩ := bind_ok hst
      have hsteq := (pure_ok hst2).symm
      subst hsteq
      refine ⟨pidx, nidx, hpx, hnx, ?_, ?_, ?_⟩ <;>
        (cases pidx <;> cases nidx <;> simp [startLabel, docOf])
    | succ k' =>
      simp only [List.getElem?_cons_succ] at hk
      obtain ⟨ps, ns, h1, h2, h3, h4, h5⟩ :=
        ih _ acc' hacc' k' i c hk hslot
      exact ⟨ps, ns, h1, h2, by simpa using h3, by simpa using h4,
        by simpa using h5⟩

/-- Claim C2 (amended): for every retained window position holding a
valid coordinate, at least one of {start, middle, end} is true, and
exactly one is true unless both `start` and `end` are true (which
happens for single-scan documents), in which case exactly two are true
and `middle` is false. -/
theorem C2_label_exclusivity (ds : DSData) (pr : Providers)
    (idcs : List (Option Idx3)) (positions : List Nat)
    (σ : Int × Int × Int) (acc : ItemAcc)
    (hmode : ds.mode = "train" ∨ ds.mode = "val")
    (h : item_loop ds pr idcs positions σ = .ok acc)
    (k i : Nat) (c : Idx3) (hk : positions[k]? = some i)
    (hslot : idcs[i + 1]? = some (some c)) :
    ∃ s m e, acc.tStart[k]? = some s ∧ acc.tMiddle[k]? = some m ∧
      acc.tEnd[k]? = some e ∧ 1 ≤ s + m + e ∧
      (s + m + e = 1 ∨ (s = 1 ∧ e = 1 ∧ m = 0)) := by
  obtain ⟨ps, ns, -, -, h3, h4, h5⟩ :=
    item_loop_targets hmode positions σ acc h k i c hk hslot
  refine ⟨_, _, _, h3, h5, h4, ?_, ?_⟩ <;>
    (cases hA : startLabel ps (docOf c) <;>
      cases hB : startLabel ns (docOf c) <;> simp [hA, hB])

/-- Claim C2 counterexample: the centre of a single-scan document
surrounded by different documents receives `start = 1` and `end = 1`
simultaneously — two of the three labels are true, not exactly one. -/
theorem C2_two_labels_true :
    getItem dsThreeDocs exProviders zeroSample 0 1 0 = .ok (some
      { images := [some 1], shapes := [(2, 3)],
        texts := [.parsed 1], image_pathsOut := [some 1],
        tStart := [1], tMiddle := [0], tEnd := [1],
        idcsOut := [some (0, 1, 0)] }) ∧
    (1 + 0 + 1 : Nat) ≠ 1 := by
  exact ⟨by decide, by decide⟩

/-- Claim C2 witness: the label-exclusivity theorem applied to a
concrete labelling run. -/
theorem C2_label_exclusivity_witness :
    ∃ acc : ItemAcc, item_loop dsThreeDocs exProviders
      [some (0, 0, 0), some (0, 1, 0), some (0, 2, 0)] [0] (0, 1, 0) =
        .ok acc ∧
    ∃ s m e, acc.tStart[0]? = some s ∧ acc.tMiddle[0]? = some m ∧
      acc.tEnd[0]? = some e ∧ 1 ≤ s + m + e ∧
      (s + m + e = 1 ∨ (s = 1 ∧ e = 1 ∧ m = 0)) := by
  have h : item_loop dsThreeDocs exProviders
      [some (0, 0, 0), some (0, 1, 0), some (0, 2, 0)] [0] (0, 1, 0) =
      .ok ⟨[some 1], [(2, 3)], [.parsed 1], [some 1], [1], [0], [1]⟩ := by
    decide
  exact ⟨_, h, C2_label_exclusivity dsThreeDocs exProviders
    [some (0, 0, 0), some (0, 1, 0), some (0, 2, 0)] [0] (0, 1, 0) _
    (Or.inl rfl) h 0 0 (0, 1, 0) (by decide) (by decide)⟩

/-- Claim C3 (amended): for every retained position holding a valid
coordinate, `start` (resp. `end`) is true iff the previous (resp. next)
slot is a sentinel or its *document index* differs from the current
slot's document index — the inventory is ignored in the comparison, so
two slots from different inventories with equal document indices are
treated as the same document; `middle` is true iff both are false. -/
theorem C3_labels_compare_doc_index (ds : DSData) (pr : Providers)
    (idcs : List (Option Idx3)) (positions : List Nat)
    (σ : Int × Int × Int) (acc : ItemAcc)
    (hmode : ds.mode = "train" ∨ ds.mode = "val")
    (h : item_loop ds pr idcs positions σ = .ok acc)
    (k i : Nat) (c : Idx3) (hk : positions[k]? = some i)
    (hslot : idcs[i + 1]? = some (some c)) :
    ∃ ps ns s m e, idcs[i]? = some ps ∧ idcs[i + 2]? = some ns ∧
      acc.tStart[k]? = some s ∧ acc.tMiddle[k]? = some m ∧
      acc.tEnd[k]? = some e ∧
      (s = 1 ↔ (ps = none ∨ ps.map docOf ≠ some (docOf c))) ∧
      (e = 1 ↔ (ns = none ∨ ns.map docOf ≠ some (docOf c))) ∧
      (m = 1 ↔ (s = 0 ∧ e = 0)) := by
  obtain ⟨ps, ns, h1, h2, h3, h4, h5⟩ :=
    item_loop_targets hmode positions σ acc h k i c hk hslot
  refine ⟨ps, ns, _, _, _, h1, h2, h3, h5, h4, ?_, ?_, ?_⟩
  · rw [← startLabel_iff]
    cases startLabel ps (docOf c) <;> simp
  · rw [← startLabel_iff]
    cases startLabel ns (docOf c) <;> simp
  · cases hA : startLabel ps (docOf c) <;>
      cases hB : startLabel ns (docOf c) <;> simp [hA, hB]

/-- Claim C3 counterexample: a window crossing two inventory boundaries,
`[(0,0,0), (1,0,0), (2,0,0)]` — all three slots have document index `0`
in *different* inventories — is labelled `middle = 1`, `start = end =
0`: the code compares only the document index, while the claim demands
`start = end = 1` under `(inventory, document)` pair identity. -/
theorem C3_inventory_ignored :
    getItem dsThreeInv exProviders zeroSample 1 0 0 = .ok (some
      { images := [some 20], shapes := [(21, 22)],
        texts := [.parsed 20], image_pathsOut := [some 20],
        tStart := [0], tMiddle := [1], tEnd := [0],
        idcsOut := [some (1, 0, 0)] }) ∧
    (((0 : Int), (0 : Int)) ≠ ((1 : Int), (0 : Int))) ∧
    (((2 : Int), (0 : Int)) ≠ ((1 : Int), (0 : Int))) ∧
    (0 : Nat) ≠ 1 := by
  exact ⟨by decide, by decide, by decide, by decide⟩

/-- Claim C3 witness: the label-characterization theorem applied to a
concrete labelling run. -/
theorem C3_labels_compare_doc_index_witness :
    ∃ acc : ItemAcc, item_loop dsThreeInv exProviders
      [some (0, 0, 0), some (1, 0, 0), some (2, 0, 0)] [0] (1, 0, 0) =
        .ok acc ∧
    ∃ ps ns s m e,
      ([some ((0 : Int), (0 : Int), (0 : Int)), some (1, 0, 0),
        some (2, 0, 0)] : List (Option Idx3))[0]? = some ps ∧
      ([some ((0 : Int), (0 : Int), (0 : Int)), some (1, 0, 0),
        some (2, 0, 0)] : List (Option Idx3))[2]? = some ns ∧
      acc.tStart[0]? = some s ∧ acc.tMiddle[0]? = some m ∧
      acc.tEnd[0]? = some e ∧
      (s = 1 ↔ (ps = none ∨ ps.map docOf ≠ some (docOf (1, 0, 0)))) ∧
      (e = 1 ↔ (ns = none ∨ ns.map docOf ≠ some (docOf (1, 0, 0)))) ∧
      (m = 1 ↔ (s = 0 ∧ e = 0)) := by
  have h : item_loop dsThreeInv exProviders
      [some (0, 0, 0), some (1, 0, 0), some (2, 0, 0)] [0] (1, 0, 0) =
      .ok ⟨[some 20], [(21, 22)], [.parsed 20], [some 20],
        [0], [1], [0]⟩ := by decide
  exact ⟨_, h, C3_labels_compare_doc_index dsThreeInv exProviders
    [some (0, 0, 0), some (1, 0, 0), some (2, 0, 0)] [0] (1, 0, 0) _
    (Or.inl rfl) h 0 0 (1, 0, 0) (by decide) (by decide)⟩

/-- Claim C4 (code bug): for the sample with centre `(0,0,0)` of a
two-scan document and `wrap_round = false`, position 0 of the window is
the missing sentinel (`idcsOut[0] = none`), yet the emitted sample gives
that position the *parsed transcription and page size of the stale
centre coordinate* — line 396 of `dataset.py` calls `get_text`
unconditionally with the stale `inventory, document, scan` variables,
overwriting the all-empty placeholder of lines 366-374 — and its `start`
label is `1`, not the all-false placeholder label the claim (and the
code's own dead placeholder assignment) prescribes.  Only the image
(`none`) and image path (`None`) behave as claimed. -/
theorem C4_sentinel_gets_stale_assets :
    getItem dsOneDoc exProviders zeroSample 0 0 0 = .ok (some
      { images := [none, some 10, some 11],
        shapes := [(11, 12), (11, 12), (12, 13)],
        texts := [.parsed 10, .parsed 10, .parsed 11],
        image_pathsOut := [none, some 10, some 11],
        tStart := [1, 1, 0], tMiddle := [0, 0, 0], tEnd := [0, 0, 1],
        idcsOut := [none, some (0, 0, 0), some (0, 0, 1)] }) ∧
    TextPayload.parsed 10 ≠ TextPayload.placeholder ∧
    ((11, 12) : Nat × Nat) ≠ (0, 0) ∧ (1 : Nat) ≠ 0 := by
  exact ⟨by decide, by decide, by decide, by decide⟩
